import Mathlib

/-!
Verification development for the judgment-analysis pipeline:
PDF extraction method selection, paragraph chunking, prompt assembly,
the multi-step orchestrator and anchor extraction, embedded shallowly
from the TypeScript sources (chunkingService, pdfExtractionService,
analysisPrompts, analysisService).

Strings are modelled as `List Char`; JavaScript numbers that hold
integer counters are modelled as `Nat`.
-/

set_option maxRecDepth 8000
set_option maxHeartbeats 1600000

namespace Juris

/-- The set of characters matched by JavaScript regex whitespace
escape and removed by trim: tab, line feed, vertical tab, form feed,
carriage return, space, NBSP, ogham space, the U+2000..U+200A range,
line/paragraph separators, narrow NBSP, medium mathematical space,
ideographic space and BOM. -/
def isSpaceJS (c : Char) : Bool :=
  c.toNat = 0x09 ∨ c.toNat = 0x0A ∨ c.toNat = 0x0B ∨ c.toNat = 0x0C ∨
  c.toNat = 0x0D ∨ c.toNat = 0x20 ∨ c.toNat = 0xA0 ∨ c.toNat = 0x1680 ∨
  (0x2000 ≤ c.toNat ∧ c.toNat ≤ 0x200A) ∨ c.toNat = 0x2028 ∨
  c.toNat = 0x2029 ∨ c.toNat = 0x202F ∨ c.toNat = 0x205F ∨
  c.toNat = 0x3000 ∨ c.toNat = 0xFEFF

/-- Model of JavaScript `s.trim()`: strip leading and trailing
whitespace. -/
def jsTrim (s : List Char) : List Char :=
  ((s.dropWhile isSpaceJS).reverse.dropWhile isSpaceJS).reverse

/-- Model of JavaScript `s.substring(a, b)` for `a ≤ b`. -/
def substringJS (s : List Char) (a b : Nat) : List Char :=
  (s.drop a).take (b - a)

/-- Decimal digit character, as produced by JavaScript number
stringification. -/
def digitChar (d : Nat) : Char :=
  if d = 0 then '0' else if d = 1 then '1' else if d = 2 then '2'
  else if d = 3 then '3' else if d = 4 then '4' else if d = 5 then '5'
  else if d = 6 then '6' else if d = 7 then '7' else if d = 8 then '8'
  else '9'

/-- Fuel-driven accumulator loop producing the decimal digits of a
natural number, most significant first. -/
def natToCharsGo : Nat → Nat → List Char → List Char
  | 0, _, acc => acc
  | fuel + 1, n, acc =>
      if n < 10 then digitChar n :: acc
      else natToCharsGo fuel (n / 10) (digitChar (n % 10) :: acc)

/-- Decimal rendering of a natural number, the model of JavaScript
template interpolation of an integer-valued number. -/
def natToChars (n : Nat) : List Char :=
  natToCharsGo (n + 1) n []

/-- Reads decimal digits back into a number; used to state that the
trailing chunk-id component is the running chunk index. -/
def parseNatChars (s : List Char) : Nat :=
  s.foldl (fun a c => a * 10 + (c.toNat - 48)) 0

/-- The characters of a chunk id after its last dash. -/
def lastDashComp (s : List Char) : List Char :=
  (s.reverse.takeWhile (fun c => c ≠ '-')).reverse

/-- Splitter for the paragraph-break regex split on two or more
consecutive newlines: a run of at least two newlines separates parts
and is consumed entirely. -/
def splitDNLGo : Nat → List Char → List Char → List (List Char)
  | 0, s, cur => [cur.reverse ++ s]
  | _ + 1, [], cur => [cur.reverse]
  | fuel + 1, '\n' :: '\n' :: rest, cur =>
      cur.reverse :: splitDNLGo fuel (rest.dropWhile (fun c => c = '\n')) []
  | fuel + 1, c :: rest, cur => splitDNLGo fuel rest (c :: cur)

/-- Model of JavaScript split on the paragraph-break pattern of two or
more newlines. -/
def splitDNL (s : List Char) : List (List Char) :=
  splitDNLGo s.length s []

/-- ASCII decimal digit test (the regex digit class). -/
def isDigitChar (c : Char) : Bool :=
  '0' ≤ c ∧ c ≤ '9'

/-- ASCII lowercase letter test. -/
def isLowerChar (c : Char) : Bool :=
  'a' ≤ c ∧ c ≤ 'z'

/-- ASCII uppercase letter test. -/
def isUpperChar (c : Char) : Bool :=
  'A' ≤ c ∧ c ≤ 'Z'

/-- The lookahead of the secondary paragraph split: the text starts
with digits followed by a period, a parenthesized digit/lowercase
group, an uppercase letter followed by a period, or a lowercase letter
followed by a closing parenthesis. -/
def numberedStart (s : List Char) : Bool :=
  (let ds := s.takeWhile isDigitChar
   !ds.isEmpty && (s.drop ds.length).head? = some '.') ||
  (s.head? = some '(' &&
   (let inner := (s.drop 1).takeWhile (fun c => isDigitChar c || isLowerChar c)
    !inner.isEmpty && (s.drop (1 + inner.length)).head? = some ')')) ||
  (match s with
   | c1 :: c2 :: _ => (isUpperChar c1 && c2 = '.') || (isLowerChar c1 && c2 = ')')
   | _ => false)

/-- Splitter for the secondary split on a newline whose lookahead
indicates legal sub-paragraph numbering; the newline is consumed. -/
def splitNumberedGo : List Char → List Char → List (List Char)
  | [], cur => [cur.reverse]
  | '\n' :: rest, cur =>
      if numberedStart rest then cur.reverse :: splitNumberedGo rest []
      else splitNumberedGo rest ('\n' :: cur)
  | c :: rest, cur => splitNumberedGo rest (c :: cur)

/-- Model of the secondary numbered-paragraph split. -/
def splitNumbered (s : List Char) : List (List Char) :=
  splitNumberedGo s []

/-- Splitter for split on runs of whitespace (used by word counting). -/
def splitWSGo : Nat → List Char → List Char → List (List Char)
  | 0, s, cur => [cur.reverse ++ s]
  | _ + 1, [], cur => [cur.reverse]
  | fuel + 1, c :: rest, cur =>
      if isSpaceJS c then
        cur.reverse :: splitWSGo fuel (rest.dropWhile isSpaceJS) []
      else splitWSGo fuel rest (c :: cur)

/-- Model of JavaScript split on one-or-more whitespace characters. -/
def splitWS (s : List Char) : List (List Char) :=
  splitWSGo s.length s []

/-- `countWords` from the chunking service: trim, then split on
whitespace runs and count the pieces (an empty string counts 1, a
JavaScript split quirk kept by the model). -/
def countWords (text : List Char) : Nat :=
  (splitWS (jsTrim text)).length

/-- `extractParagraphs` from the chunking service: split on blank-line
boundaries, split each part further at newlines introducing numbered
sub-paragraphs, and keep only parts with non-empty trimmed text. -/
def extractParagraphs (text : List Char) : List (List Char) :=
  let parts := splitDNL text
  let paragraphs := parts.flatMap (fun part =>
    let numberedParts := splitNumbered part
    if numberedParts.length > 1 then numberedParts else [part])
  paragraphs.filter (fun p => (jsTrim p).length ≠ 0)

/-- First position of a sentence-ending punctuation mark directly
followed by whitespace, the model of matching the sentence-end
pattern. -/
def findSentenceEnd : List Char → Option Nat
  | c1 :: c2 :: rest =>
      if (c1 = '.' || c1 = '!' || c1 = '?') && isSpaceJS c2 then some 0
      else (findSentenceEnd (c2 :: rest)).map (· + 1)
  | _ => none

/-- Extraction method tag carried by pages and extraction results. -/
inductive ExtractionMethod where
  | digital
  | ocr
  | hybrid
deriving DecidableEq

/-- `PageContent` from the extraction service. -/
structure PageContent where
  pageNumber : Nat
  text : List Char
  method : ExtractionMethod
deriving DecidableEq

/-- `ChunkAnchor`: exact offsets within the owning paragraph. -/
structure ChunkAnchor where
  pageNumber : Nat
  paragraphNumber : Nat
  startChar : Nat
  endChar : Nat
deriving DecidableEq

/-- Chunk metadata block. -/
structure ChunkMetadata where
  pageNumber : Nat
  paragraphNumber : Nat
  wordCount : Nat
  charCount : Nat
deriving DecidableEq

/-- `JudgmentChunk` from the chunking service. -/
structure JudgmentChunk where
  chunkId : List Char
  text : List Char
  anchor : ChunkAnchor
  metadata : ChunkMetadata
deriving DecidableEq

/-- Chunking statistics block. -/
structure ChunkStatistics where
  totalPages : Nat
  totalParagraphs : Nat
  averageChunkSize : Nat
deriving DecidableEq

/-- `ChunkingResult` from the chunking service. -/
structure ChunkingResult where
  chunks : List JudgmentChunk
  totalChunks : Nat
  statistics : ChunkStatistics
deriving DecidableEq

/-- `MAX_CHUNK_SIZE` (characters). -/
def MAX_CHUNK_SIZE : Nat := 1000

/-- `MIN_CHUNK_SIZE` (characters). -/
def MIN_CHUNK_SIZE : Nat := 200

/-- `OVERLAP_SIZE` (characters of overlap between chunks). -/
def OVERLAP_SIZE : Nat := 100

/-- The chunk id template: judgment id, page number, paragraph number
and running chunk counter joined by dashes.  The judgment id is kept
as the string the caller interpolates. -/
def mkChunkId (jid : List Char) (page para idx : Nat) : List Char :=
  jid ++ '-' :: natToChars page ++ '-' :: natToChars para ++ '-' :: natToChars idx

/-- The tentative window end before sentence-boundary adjustment:
`MAX_CHUNK_SIZE` past the window start, capped at the paragraph end. -/
def rawEnd (para : List Char) (position : Nat) : Nat :=
  min (position + MAX_CHUNK_SIZE) para.length

/-- The start of the sentence-boundary search region: the last 200
characters of the window, but no earlier than `MIN_CHUNK_SIZE` past
the window start. -/
def searchStartOf (para : List Char) (position : Nat) : Nat :=
  max (position + MIN_CHUNK_SIZE) (rawEnd para position - 200)

/-- The end position of the window starting at `position` in
`splitLongParagraph`: at most `MAX_CHUNK_SIZE` characters, pulled back
to just after the first sentence-ending punctuation found in the last
stretch of the window when the window does not already reach the end
of the paragraph. -/
def winEnd (para : List Char) (position : Nat) : Nat :=
  if rawEnd para position < para.length then
    match findSentenceEnd (substringJS para (searchStartOf para position) (rawEnd para position)) with
    | some i => searchStartOf para position + i + 2
    | none => rawEnd para position
  else rawEnd para position

/-- The chunk emitted for the window starting at `position`: the
trimmed window text, the anchor holding the untrimmed window offsets,
and the word/char counts of the trimmed text. -/
def windowChunk (para : List Char) (pageNumber paragraphNumber : Nat)
    (jid : List Char) (ctr position : Nat) : JudgmentChunk :=
  { chunkId := mkChunkId jid pageNumber paragraphNumber ctr
    text := jsTrim (substringJS para position (winEnd para position))
    anchor := ⟨pageNumber, paragraphNumber, position, winEnd para position⟩
    metadata := ⟨pageNumber, paragraphNumber,
      countWords (jsTrim (substringJS para position (winEnd para position))),
      (jsTrim (substringJS para position (winEnd para position))).length⟩ }

/-- The position the window loop advances to: back off the window end
by `OVERLAP_SIZE`, but move forward at least `MIN_CHUNK_SIZE`. -/
def nextPos (para : List Char) (position : Nat) : Nat :=
  max (winEnd para position - OVERLAP_SIZE) (position + MIN_CHUNK_SIZE)

/-- The window loop of `splitLongParagraph`: each iteration emits the
trimmed window as a chunk and advances by the window length minus
`OVERLAP_SIZE`, but at least `MIN_CHUNK_SIZE`.  The fuel argument
dominates the iteration count; `para.length` is always sufficient. -/
def splitLongParaGo (para : List Char) (pageNumber paragraphNumber : Nat)
    (jid : List Char) : Nat → Nat → Nat → List JudgmentChunk
  | 0, _, _ => []
  | fuel + 1, ctr, position =>
      if position < para.length then
        if para.length ≤ winEnd para position then
          [windowChunk para pageNumber paragraphNumber jid ctr position]
        else
          windowChunk para pageNumber paragraphNumber jid ctr position ::
            splitLongParaGo para pageNumber paragraphNumber jid fuel
              (ctr + 1) (nextPos para position)
      else []

/-- `splitLongParagraph` from the chunking service. -/
def splitLongParagraph (para : List Char) (pageNumber paragraphNumber : Nat)
    (jid : List Char) (startChunkCounter : Nat) : List JudgmentChunk :=
  splitLongParaGo para pageNumber paragraphNumber jid para.length startChunkCounter 0

/-- The per-paragraph body of the `chunkPages` loop: a paragraph at or
under `MAX_CHUNK_SIZE` becomes a single chunk holding the paragraph
verbatim; a longer paragraph is split into overlapping windows. -/
def chunkOfParagraph (para : List Char) (pageNumber paragraphNumber : Nat)
    (jid : List Char) (chunkCtr : Nat) : List JudgmentChunk :=
  if para.length ≤ MAX_CHUNK_SIZE then
    [{ chunkId := mkChunkId jid pageNumber paragraphNumber chunkCtr
       text := para
       anchor := ⟨pageNumber, paragraphNumber, 0, para.length⟩
       metadata := ⟨pageNumber, paragraphNumber, countWords para, para.length⟩ }]
  else splitLongParagraph para pageNumber paragraphNumber jid chunkCtr

/-- The paragraph loop of `chunkPages` over one page: skips paragraphs
with empty trimmed text, increments the global paragraph counter for
the others, and emits their chunks while advancing the chunk counter
by the number of chunks emitted. -/
def processParas (pg : PageContent) (jid : List Char) :
    List (List Char) → Nat → Nat → List JudgmentChunk × Nat × Nat
  | [], paraCtr, chunkCtr => ([], paraCtr, chunkCtr)
  | para :: rest, paraCtr, chunkCtr =>
      if (jsTrim para).length = 0 then processParas pg jid rest paraCtr chunkCtr
      else
        let cs := chunkOfParagraph para pg.pageNumber (paraCtr + 1) jid chunkCtr
        let r := processParas pg jid rest (paraCtr + 1) (chunkCtr + cs.length)
        (cs ++ r.1, r.2)

/-- The page loop of `chunkPages`. -/
def processPages (jid : List Char) :
    List PageContent → Nat → Nat → List JudgmentChunk × Nat × Nat
  | [], paraCtr, chunkCtr => ([], paraCtr, chunkCtr)
  | pg :: rest, paraCtr, chunkCtr =>
      let r := processParas pg jid (extractParagraphs pg.text) paraCtr chunkCtr
      let r2 := processPages jid rest r.2.1 r.2.2
      (r.1 ++ r2.1, r2.2)

/-- Rounding of the average chunk size: the total over the count,
rounded half-up, the behaviour of rounding a non-negative ratio. -/
def roundedAverage (total count : Nat) : Nat :=
  if count = 0 then 0 else (2 * total + count) / (2 * count)

/-- `chunkPages` from the chunking service: paragraph extraction and
chunk emission over all pages with a document-global paragraph counter
and running chunk counter, followed by exact statistics. -/
def chunkPages (pages : List PageContent) (jid : List Char) : ChunkingResult :=
  let r := processPages jid pages 0 0
  let chunks := r.1
  let totalChunkSize := chunks.foldl (fun sum c => sum + c.text.length) 0
  { chunks := chunks
    totalChunks := chunks.length
    statistics :=
      { totalPages := pages.length
        totalParagraphs := r.2.1
        averageChunkSize := roundedAverage totalChunkSize chunks.length } }

/-- The document-order list of (page number, paragraph text) pairs the
global paragraph counter walks: the non-empty paragraphs of each page
in reading order.  The counter value `n` names the `n`-th entry
(1-indexed) of this list. -/
def paraAssignment (pages : List PageContent) : List (Nat × List Char) :=
  pages.flatMap (fun pg => (extractParagraphs pg.text).map (fun para => (pg.pageNumber, para)))

/-- The untrimmed window of the source paragraph a chunk was cut
from, delimited by the chunk anchor's character offsets. -/
def windowOf (para : List Char) (c : JudgmentChunk) : List Char :=
  substringJS para c.anchor.startChar c.anchor.endChar

/-- Continuation of window reconstruction: given the previous chunk's
end offset, drop each next chunk's overlap with the region already
covered and concatenate the remainders. -/
def reconGo (para : List Char) : Nat → List JudgmentChunk → List Char
  | _, [] => []
  | pe, c :: rest =>
      (windowOf para c).drop (pe - c.anchor.startChar) ++ reconGo para c.anchor.endChar rest

/-- Reconstruction of a paragraph from the untrimmed anchor-delimited
windows of its chunks, removing the overlapping region between each
pair of consecutive chunks. -/
def reconstructWindows (para : List Char) : List JudgmentChunk → List Char
  | [] => []
  | c :: rest => windowOf para c ++ reconGo para c.anchor.endChar rest

/-- Continuation of text reconstruction (following the claim wording):
drop each next chunk text's overlap with the region already covered,
measured by the anchors, and concatenate. -/
def reconTextGo : Nat → List JudgmentChunk → List Char
  | _, [] => []
  | pe, c :: rest => c.text.drop (pe - c.anchor.startChar) ++ reconTextGo c.anchor.endChar rest

/-- Reconstruction of a paragraph by concatenating its chunks' texts
after removing the overlapping regions between consecutive chunks, as
the claim states it. -/
def reconstructChunks : List JudgmentChunk → List Char
  | [] => []
  | c :: rest => c.text ++ reconTextGo c.anchor.endChar rest

/-- The windows of a chunk list chain across the paragraph: each
window starts no later than the previous window's end, ends within the
paragraph, and the final window ends exactly at the paragraph end. -/
def WindowChain (para : List Char) : Nat → List JudgmentChunk → Prop
  | pe, [] => pe = para.length
  | pe, c :: rest =>
      c.anchor.startChar ≤ pe ∧ pe ≤ c.anchor.endChar ∧
      c.anchor.endChar ≤ para.length ∧ WindowChain para c.anchor.endChar rest

/-- `MIN_TEXT_LENGTH`: the per-page character threshold of the
extraction method decision. -/
def MIN_TEXT_LENGTH : Nat := 50

/-- PDF metadata block surfaced by digital parsing. -/
structure PdfMetadata where
  title : Option (List Char)
  author : Option (List Char)
  subject : Option (List Char)
  keywords : Option (List Char)
deriving DecidableEq

/-- `ExtractionResult` from the extraction service. -/
structure ExtractionResult where
  pages : List PageContent
  totalPages : Nat
  extractionMethod : ExtractionMethod
  metadata : Option PdfMetadata
deriving DecidableEq

/-- The outcome of one extraction strategy before the method decision:
pages, page count, and (for the digital strategy) document metadata. -/
structure StrategyResult where
  pages : List PageContent
  totalPages : Nat
  metadata : Option PdfMetadata
deriving DecidableEq

/-- The total extracted character count over a strategy result's
pages, as `extractFromBuffer` computes it. -/
def totalTextLen (r : StrategyResult) : Nat :=
  r.pages.foldl (fun sum page => sum + page.text.length) 0

/-- `extractFromBuffer` from the extraction service, with the two
platform extraction strategies (pdf-parse and OCR) supplied as data:
sum the digital page text lengths and accept the digital result only
when the total strictly exceeds `MIN_TEXT_LENGTH` per page; otherwise
fall back to the OCR result, keeping the digital metadata. -/
def extractFromBuffer (digitalResult ocrResult : StrategyResult) : ExtractionResult :=
  if MIN_TEXT_LENGTH * digitalResult.totalPages < totalTextLen digitalResult then
    { pages := digitalResult.pages
      totalPages := digitalResult.totalPages
      extractionMethod := .digital
      metadata := digitalResult.metadata }
  else
    { pages := ocrResult.pages
      totalPages := ocrResult.totalPages
      extractionMethod := .ocr
      metadata := digitalResult.metadata }

/-! ### JSON values

Parsed step results are arbitrary JSON values.  Arrays and objects are
mutual inductives of their own so that every function over them is
structural and kernel-computable. -/

mutual
inductive Json where
  | null
  | bool (b : Bool)
  | num (n : Int)
  | str (s : List Char)
  | arr (items : JsonArr)
  | obj (fields : JsonObj)
deriving DecidableEq
inductive JsonArr where
  | nil
  | cons (hd : Json) (tl : JsonArr)
deriving DecidableEq
inductive JsonObj where
  | nil
  | cons (key : List Char) (val : Json) (tl : JsonObj)
deriving DecidableEq
end

/-- Opening brace character. -/
def lbrace : Char := Char.ofNat 123

/-- Closing brace character. -/
def rbrace : Char := Char.ofNat 125

/-- The keys of a JSON object, in order. -/
def JsonObj.keys : JsonObj → List (List Char)
  | .nil => []
  | .cons k _ tl => k :: tl.keys

/-- First binding of a key in a JSON object (JavaScript property
access; parsed objects have unique keys). -/
def JsonObj.lookup : JsonObj → List Char → Option Json
  | .nil, _ => none
  | .cons k v tl, key => if k = key then some v else tl.lookup key

/-- JavaScript truthiness of a JSON value: null, false, 0 and the
empty string are falsy; every array and object is truthy. -/
def jsTruthy : Json → Bool
  | .null => false
  | .bool b => b
  | .num n => n ≠ 0
  | .str s => !s.isEmpty
  | .arr _ => true
  | .obj _ => true

/-- Lowercase hexadecimal digit. -/
def hexChar (n : Nat) : Char :=
  if n < 10 then digitChar n
  else if n = 10 then 'a' else if n = 11 then 'b' else if n = 12 then 'c'
  else if n = 13 then 'd' else if n = 14 then 'e' else 'f'

/-- JSON string escaping of one character. -/
def escapeJsonChar (c : Char) : List Char :=
  if c = '"' then [ '\\', '"' ]
  else if c = '\\' then [ '\\', '\\' ]
  else if c = '\n' then [ '\\', 'n' ]
  else if c = '\r' then [ '\\', 'r' ]
  else if c = '\t' then [ '\\', 't' ]
  else if c.toNat = 8 then [ '\\', 'b' ]
  else if c.toNat = 12 then [ '\\', 'f' ]
  else if c.toNat < 32 then
    '\\' :: 'u' :: '0' :: '0' :: hexChar (c.toNat / 16) :: [ hexChar (c.toNat % 16) ]
  else [ c ]

/-- A JSON-quoted string. -/
def quoteJson (s : List Char) : List Char :=
  '"' :: s.flatMap escapeJsonChar ++ [ '"' ]

/-- Decimal rendering of an integer. -/
def intToChars (n : Int) : List Char :=
  if n < 0 then '-' :: natToChars n.natAbs else natToChars n.natAbs

mutual
/-- Model of JSON.stringify with a two-space indent, at nesting level
`lvl`: the serialization the prompt builder embeds for non-string
context values. -/
def stringifyVal : Json → Nat → List Char
  | .null, _ => [ 'n', 'u', 'l', 'l' ]
  | .bool true, _ => [ 't', 'r', 'u', 'e' ]
  | .bool false, _ => [ 'f', 'a', 'l', 's', 'e' ]
  | .num n, _ => intToChars n
  | .str s, _ => quoteJson s
  | .arr .nil, _ => [ '[', ']' ]
  | .arr (JsonArr.cons x tl), lvl =>
      '[' :: '\n' :: stringifyItems (JsonArr.cons x tl) (lvl + 1) ++
        '\n' :: List.replicate (2 * lvl) ' ' ++ [ ']' ]
  | .obj .nil, _ => [ lbrace, rbrace ]
  | .obj (JsonObj.cons k v tl), lvl =>
      lbrace :: '\n' :: stringifyFields (JsonObj.cons k v tl) (lvl + 1) ++
        '\n' :: List.replicate (2 * lvl) ' ' ++ [ rbrace ]
/-- Comma-and-newline separated array items, each line indented. -/
def stringifyItems : JsonArr → Nat → List Char
  | .nil, _ => []
  | .cons x .nil, lvl => List.replicate (2 * lvl) ' ' ++ stringifyVal x lvl
  | .cons x (JsonArr.cons y tl), lvl =>
      List.replicate (2 * lvl) ' ' ++ stringifyVal x lvl ++
        ',' :: '\n' :: stringifyItems (JsonArr.cons y tl) lvl
/-- Comma-and-newline separated object fields, each line indented. -/
def stringifyFields : JsonObj → Nat → List Char
  | .nil, _ => []
  | .cons k v .nil, lvl =>
      List.replicate (2 * lvl) ' ' ++ quoteJson k ++ ':' :: ' ' :: stringifyVal v lvl
  | .cons k v (JsonObj.cons k2 v2 tl), lvl =>
      List.replicate (2 * lvl) ' ' ++ quoteJson k ++ ':' :: ' ' :: stringifyVal v lvl ++
        ',' :: '\n' :: stringifyFields (JsonObj.cons k2 v2 tl) lvl
end

/-- `JSON.stringify(value, null, 2)` at the top level. -/
def jsonStringify (v : Json) : List Char :=
  stringifyVal v 0

/-- The anchor attribute key. -/
def anchorKey : List Char := [ 'a', 'n', 'c', 'h', 'o', 'r' ]

/-- One path step in the rendered anchor path: a named field is joined
with a dot (unless the path so far is empty), an array index is
appended in brackets. -/
def childPath (path key : List Char) : List Char :=
  if path.isEmpty then key else path ++ '.' :: key

/-- Rendered array-index path step. -/
def indexPath (path : List Char) (i : Nat) : List Char :=
  path ++ '[' :: natToChars i ++ [ ']' ]

mutual
/-- `extractAnchors`'s recursive traversal (`extractFromValue` in the
source): record the anchor of every object carrying a truthy `anchor`
attribute, then recurse into all fields and items, arrays with
bracketed index path steps, objects with dotted key steps. -/
def extractFromValue : Json → List Char → List (List Char × Json)
  | .obj fields, path =>
      (match fields.lookup anchorKey with
       | some a => if jsTruthy a then [(path, a)] else []
       | none => []) ++ extractFromObj fields path
  | .arr items, path => extractFromArr items 0 path
  | _, _ => []
/-- Field loop of the anchor traversal. -/
def extractFromObj : JsonObj → List Char → List (List Char × Json)
  | .nil, _ => []
  | .cons k v tl, path => extractFromValue v (childPath path k) ++ extractFromObj tl path
/-- Item loop of the anchor traversal. -/
def extractFromArr : JsonArr → Nat → List Char → List (List Char × Json)
  | .nil, _, _ => []
  | .cons x tl, i, path => extractFromValue x (indexPath path i) ++ extractFromArr tl (i + 1) path
end

/-- `extractAnchors` from the analysis service. -/
def extractAnchors (result : Json) : List (List Char × Json) :=
  extractFromValue result []

/-- A structured path step into a JSON value. -/
inductive PathElem where
  | field (k : List Char)
  | index (i : Nat)
deriving DecidableEq

mutual
/-- The claim-side collection of anchored sub-objects: every
descendant object carrying an `anchor` field (truthy or not), paired
with its structured access path, in traversal order. -/
def anchoredNodes : Json → List (List PathElem × Json)
  | .obj fields =>
      (match fields.lookup anchorKey with
       | some a => [(([] : List PathElem), a)]
       | none => []) ++ anchoredNodesObj fields
  | .arr items => anchoredNodesArr items 0
  | _ => []
/-- Field loop of the claim-side collection. -/
def anchoredNodesObj : JsonObj → List (List PathElem × Json)
  | .nil => []
  | .cons k v tl =>
      (anchoredNodes v).map (fun pa => (PathElem.field k :: pa.1, pa.2)) ++ anchoredNodesObj tl
/-- Item loop of the claim-side collection. -/
def anchoredNodesArr : JsonArr → Nat → List (List PathElem × Json)
  | .nil, _ => []
  | .cons x tl, i =>
      (anchoredNodes x).map (fun pa => (PathElem.index i :: pa.1, pa.2)) ++
        anchoredNodesArr tl (i + 1)
end

/-- Rendering of a structured path, continuing from a rendered
prefix, exactly as the traversal builds its path strings. -/
def renderPathFrom (path : List Char) : List PathElem → List Char
  | [] => path
  | PathElem.field k :: rest => renderPathFrom (childPath path k) rest
  | PathElem.index i :: rest => renderPathFrom (indexPath path i) rest

/-- Rendering of a structured path from the result root. -/
def renderPath (p : List PathElem) : List Char :=
  renderPathFrom [] p

/-- No duplicate entries in a key list. -/
def nodupKeysB : List (List Char) → Bool
  | [] => true
  | k :: rest => (!rest.contains k) && nodupKeysB rest

mutual
/-- Realizable JSON values: objects never carry duplicate keys (the
output of JSON.parse cannot). -/
def wfJson : Json → Bool
  | .obj fields => nodupKeysB fields.keys && wfObj fields
  | .arr items => wfArr items
  | _ => true
/-- Field loop of well-formedness. -/
def wfObj : JsonObj → Bool
  | .nil => true
  | .cons _ v tl => wfJson v && wfObj tl
/-- Item loop of well-formedness. -/
def wfArr : JsonArr → Bool
  | .nil => true
  | .cons x tl => wfJson x && wfArr tl
end

/-! ### Prompt assembly

The prompt templates are transcribed verbatim from the source; braces
and apostrophes appear as character escapes.  String replacement
mirrors JavaScript `replace` (first occurrence) and `replaceAll`
(left-to-right, no rescanning of the replacement), including the
`GetSubstitution` expansion of dollar patterns in the replacement. -/

/-- JavaScript `GetSubstitution` for a string search: in the
replacement text, `$$` stands for a dollar sign, `$&` for the matched
substring, `$` followed by the code-96 backquote character for the
portion of the subject before the match, and `$` followed by an
apostrophe for the portion after it; any other dollar sign stays
literal (a string search has no capture groups, so `$1` and `$<name>`
are untouched). -/
def getSubstitution (matched pre suf : List Char) : List Char → List Char
  | [] => []
  | [c] => [c]
  | c1 :: c2 :: rest =>
      if c1 = '$' then
        if c2 = '$' then '$' :: getSubstitution matched pre suf rest
        else if c2 = '&' then matched ++ getSubstitution matched pre suf rest
        else if c2 = '\x60' then pre ++ getSubstitution matched pre suf rest
        else if c2 = '\x27' then suf ++ getSubstitution matched pre suf rest
        else c1 :: getSubstitution matched pre suf (c2 :: rest)
      else c1 :: getSubstitution matched pre suf (c2 :: rest)

/-- Fuel-driven scan of JavaScript `replaceAll`: replace every
non-overlapping occurrence of `pat`, scanning left to right without
rescanning replacements; each inserted replacement is expanded by
`getSubstitution` against the original subject, whose already scanned
part is carried in `acc`.  `s.length` fuel always suffices. -/
def replaceAllGo (pat rep : List Char) : Nat → List Char → List Char → List Char
  | 0, _, s => s
  | _ + 1, _, [] => []
  | fuel + 1, acc, c :: rest =>
      if pat.isPrefixOf (c :: rest) && !pat.isEmpty then
        getSubstitution pat acc (rest.drop (pat.length - 1)) rep ++
          replaceAllGo pat rep fuel (acc ++ pat) (rest.drop (pat.length - 1))
      else c :: replaceAllGo pat rep fuel (acc ++ [c]) rest

/-- JavaScript `replaceAll` with a string pattern. -/
def replaceAll (pat rep s : List Char) : List Char :=
  replaceAllGo pat rep s.length [] s

/-- Fuel-driven scan of JavaScript `replace` with a string pattern:
replace only the first occurrence, expanding the replacement by
`getSubstitution`. -/
def replaceFirstGo (pat rep : List Char) : Nat → List Char → List Char → List Char
  | 0, _, s => s
  | _ + 1, _, [] => []
  | fuel + 1, acc, c :: rest =>
      if pat.isPrefixOf (c :: rest) && !pat.isEmpty then
        getSubstitution pat acc (rest.drop (pat.length - 1)) rep ++
          rest.drop (pat.length - 1)
      else c :: replaceFirstGo pat rep fuel (acc ++ [c]) rest

/-- JavaScript `replace` with a string pattern. -/
def replaceFirst (pat rep s : List Char) : List Char :=
  replaceFirstGo pat rep s.length [] s

/-- A context placeholder: the key between braces. -/
def ph (name : List Char) : List Char :=
  lbrace :: name ++ [ rbrace ]

/-- The judgment-chunks placeholder. -/
def phJudgmentChunks : List Char :=
  ph (("judgmentChunks").toList)

/-- An analysis prompt template: step name, system instructions, user
prompt template, output format and the declared required fields. -/
structure AnalysisPrompt where
  step : List Char
  systemPrompt : List Char
  userPromptTemplate : List Char
  outputFormat : List Char
  requiredFields : List (List Char)
deriving DecidableEq

/-- Prompt template for the metadata step, transcribed from the source. -/
def metadataPrompt : AnalysisPrompt :=
  ⟨("metadata").toList,
   ("You are a legal metadata extraction specialist for Indian court judgments. Extract structured case information from the judgment text with precise citations to paragraph/page numbers.").toList,
   ("Extract the following metadata from this judgment:\n\nJUDGMENT TEXT:\n\x7bjudgmentChunks\x7d\n\nExtract and return JSON with:\n1. caseName: Full case title (e.g., \"State of Punjab v. Ajaib Singh\")\n2. citation: Primary citation (e.g., \"AIR 1953 SC 10\")\n3. court: Court name (e.g., \"Supreme Court of India\", \"Delhi High Court\")\n4. bench: Bench composition (e.g., \"Division Bench of 2 judges\", \"Constitutional Bench of 5 judges\")\n5. judges: Array of judge names\n6. date: Decision date (YYYY-MM-DD format)\n7. anchors: Object mapping each field to \x7bpage, paragraph\x7d citation\n\nIMPORTANT: Include precise anchors (page and paragraph numbers) for each extracted field.").toList,
   ("JSON").toList,
   [("caseName").toList, ("citation").toList, ("court").toList, ("bench").toList, ("judges").toList, ("date").toList, ("anchors").toList]⟩

/-- Prompt template for the facts step, transcribed from the source. -/
def factsPrompt : AnalysisPrompt :=
  ⟨("facts").toList,
   ("You are a legal facts extraction specialist. Extract only the factual background of the case, distinguishing between admitted facts and disputed facts. Provide precise paragraph/page citations.").toList,
   ("Extract the factual background from this judgment:\n\nJUDGMENT TEXT:\n\x7bjudgmentChunks\x7d\n\nMETADATA CONTEXT:\n\x7bmetadata\x7d\n\nExtract and return JSON with:\n1. admittedFacts: Array of undisputed facts, each with \x7btext, anchor: \x7bpage, paragraph\x7d\x7d\n2. disputedFacts: Array of contested facts, each with \x7btext, anchor: \x7bpage, paragraph\x7d\x7d\n3. proceduralHistory: Array of procedural events (lower court proceedings, appeals), each with \x7btext, anchor: \x7bpage, paragraph\x7d\x7d\n4. parties: Object with \x7bappellant: \x7bname, role, anchor\x7d, respondent: \x7bname, role, anchor\x7d, intervenors: [\x7bname, role, anchor\x7d]\x7d\n\nAnchor each fact AND party information to specific paragraph and page numbers.").toList,
   ("JSON").toList,
   [("admittedFacts").toList, ("disputedFacts").toList, ("proceduralHistory").toList, ("parties").toList]⟩

/-- Prompt template for the timeline step, transcribed from the source. -/
def timelinePrompt : AnalysisPrompt :=
  ⟨("timeline").toList,
   ("You are a legal timeline specialist. Create a chronological timeline of events from the judgment, including both factual events and procedural milestones. Each event must have a date and citation.").toList,
   ("Generate a chronological timeline from this judgment:\n\nJUDGMENT TEXT:\n\x7bjudgmentChunks\x7d\n\nFACTS CONTEXT:\n\x7bfacts\x7d\n\nExtract and return JSON with:\n1. events: Array of chronological events, each with:\n   - date: Event date (YYYY-MM-DD, or \"Unknown\" if not specified)\n   - description: Brief event description\n   - type: \"factual\" | \"procedural\" | \"legal\"\n   - anchor: \x7bpage, paragraph\x7d\n\nSort events chronologically. Include both factual events and court proceedings.").toList,
   ("JSON").toList,
   [("events").toList]⟩

/-- Prompt template for the issues step, transcribed from the source. -/
def issuesPrompt : AnalysisPrompt :=
  ⟨("issues").toList,
   ("You are a legal issues identification specialist. Extract the key legal questions and issues framed by the court. Distinguish between main issues and subsidiary issues.").toList,
   ("Identify the legal issues from this judgment:\n\nJUDGMENT TEXT:\n\x7bjudgmentChunks\x7d\n\nFACTS CONTEXT:\n\x7bfacts\x7d\n\nExtract and return JSON with:\n1. mainIssues: Array of primary legal questions, each with:\n   - issueNumber: Sequential number\n   - question: The legal question posed\n   - anchor: \x7bpage, paragraph\x7d\n2. subsidiaryIssues: Array of secondary/derivative issues\n3. issuesFraming: Verbatim text of how court framed the issues with anchor\n\nFocus on questions of law, not facts.").toList,
   ("JSON").toList,
   [("mainIssues").toList, ("subsidiaryIssues").toList, ("issuesFraming").toList]⟩

/-- Prompt template for the arguments step, transcribed from the source. -/
def argumentsPrompt : AnalysisPrompt :=
  ⟨("arguments").toList,
   ("You are a legal arguments analysis specialist. Extract and organize arguments presented by each party, along with court\x27s consideration of those arguments.").toList,
   ("Analyze the arguments from this judgment:\n\nJUDGMENT TEXT:\n\x7bjudgmentChunks\x7d\n\nISSUES CONTEXT:\n\x7bissues\x7d\n\nExtract and return JSON with:\n1. appellantArguments: Array of arguments by appellant/petitioner, each with:\n   - summary: Argument summary\n   - supportingAuthorities: Array of cases/statutes cited\n   - anchor: \x7bpage, paragraph\x7d\n2. respondentArguments: Array of arguments by respondent\n3. courtAnalysis: Array of court\x27s consideration/response to each argument, each with:\n   - analysis: Court\x27s response/reasoning\n   - relatedArgument: Which argument this addresses\n   - anchor: \x7bpage, paragraph\x7d\n\nLink arguments to specific issues where applicable.").toList,
   ("JSON").toList,
   [("appellantArguments").toList, ("respondentArguments").toList, ("courtAnalysis").toList]⟩

/-- Prompt template for the ratio step, transcribed from the source. -/
def ratioPrompt : AnalysisPrompt :=
  ⟨("ratio").toList,
   ("You are a legal ratio decidendi extraction specialist. Identify the binding legal principles that form the basis of the decision. Ratio decidendi is the legal reasoning necessary for the decision.").toList,
   ("Extract the ratio decidendi from this judgment:\n\nJUDGMENT TEXT:\n\x7bjudgmentChunks\x7d\n\nISSUES CONTEXT:\n\x7bissues\x7d\n\nExtract and return JSON with:\n1. ratioStatements: Array of binding legal propositions, each with:\n   - principle: The legal principle established\n   - relatedIssue: Which issue this ratio addresses\n   - anchor: \x7bpage, paragraph\x7d\n   - verbatimQuote: Exact quote from judgment\n2. holdings: Final decision/verdict on each issue, each with \x7bdecision, relatedIssue, anchor: \x7bpage, paragraph\x7d\x7d\n3. legalTests: Any tests or standards established by the court, each with \x7btestName, description, anchor: \x7bpage, paragraph\x7d\x7d\n\nRatio must be necessary for the decision, not merely persuasive observations.").toList,
   ("JSON").toList,
   [("ratioStatements").toList, ("holdings").toList, ("legalTests").toList]⟩

/-- Prompt template for the obiter step, transcribed from the source. -/
def obiterPrompt : AnalysisPrompt :=
  ⟨("obiter").toList,
   ("You are a legal obiter dicta extraction specialist. Identify observations, remarks, and legal discussions that are NOT essential to the decision but may be persuasive.").toList,
   ("Extract obiter dicta from this judgment:\n\nJUDGMENT TEXT:\n\x7bjudgmentChunks\x7d\n\nRATIO CONTEXT:\n\x7bratio\x7d\n\nExtract and return JSON with:\n1. obiterStatements: Array of non-binding observations, each with:\n   - observation: The court\x27s remark/observation\n   - context: Why this was discussed (though not necessary for decision)\n   - anchor: \x7bpage, paragraph\x7d\n   - verbatimQuote: Exact quote\n2. dicta: General legal discussions or commentary, each with \x7bdiscussion, anchor: \x7bpage, paragraph\x7d\x7d\n3. hypotheticals: Any hypothetical scenarios discussed, each with \x7bscenario, anchor: \x7bpage, paragraph\x7d\x7d\n\nClearly distinguish from ratio - these are NOT binding.").toList,
   ("JSON").toList,
   [("obiterStatements").toList, ("dicta").toList, ("hypotheticals").toList]⟩

/-- Prompt template for the statutes step, transcribed from the source. -/
def statutesPrompt : AnalysisPrompt :=
  ⟨("statutes").toList,
   ("You are a legal statutes and provisions extraction specialist. Extract all statutes, sections, articles, and legal provisions cited in the judgment. For IPC provisions, provide BNS equivalents.").toList,
   ("Extract statutes and provisions from this judgment:\n\nJUDGMENT TEXT:\n\x7bjudgmentChunks\x7d\n\nExtract and return JSON with:\n1. statutes: Array of statutes/acts cited, each with:\n   - name: Full statute name (e.g., \"Indian Penal Code, 1860\")\n   - sections: Array of specific sections/articles cited\n   - anchor: \x7bpage, paragraph\x7d where first cited\n2. ipcToBns: For IPC provisions, map to BNS equivalents:\n   - ipcSection: Old IPC section\n   - bnsSection: Corresponding BNS section\n   - description: What the provision addresses\n3. constitutionalProvisions: Separate array for Constitution articles\n4. interpretationNotes: How the court interpreted each provision, each with \x7bstatute, section, interpretation, anchor: \x7bpage, paragraph\x7d\x7d\n\nInclude full citation format for each statute.").toList,
   ("JSON").toList,
   [("statutes").toList, ("ipcToBns").toList, ("constitutionalProvisions").toList, ("interpretationNotes").toList]⟩

/-- Prompt template for the precedents step, transcribed from the source. -/
def precedentsPrompt : AnalysisPrompt :=
  ⟨("precedents").toList,
   ("You are a legal precedents extraction specialist. Extract all case law citations, categorize by treatment (followed, distinguished, overruled), and provide precise anchors.").toList,
   ("Extract precedents cited from this judgment:\n\nJUDGMENT TEXT:\n\x7bjudgmentChunks\x7d\n\nExtract and return JSON with:\n1. precedents: Array of cases cited, each with:\n   - caseName: Case title\n   - citation: Full citation (e.g., \"AIR 1973 SC 1461\")\n   - treatment: \"followed\" | \"distinguished\" | \"overruled\" | \"referred\" | \"approved\"\n   - proposition: Legal proposition for which case was cited\n   - anchor: \x7bpage, paragraph\x7d\n2. bindingPrecedents: Supreme Court cases that bound the court, each with \x7bcaseName, citation, proposition, anchor: \x7bpage, paragraph\x7d\x7d\n3. persuasivePrecedents: High Court or foreign cases cited persuasively, each with \x7bcaseName, citation, proposition, anchor: \x7bpage, paragraph\x7d\x7d\n4. overruledCases: Any precedents explicitly overruled, each with \x7bcaseName, citation, reason, anchor: \x7bpage, paragraph\x7d\x7d\n\nVerify citations are accurate and complete.").toList,
   ("JSON").toList,
   [("precedents").toList, ("bindingPrecedents").toList, ("persuasivePrecedents").toList, ("overruledCases").toList]⟩

/-- Prompt template for the summary step, transcribed from the source. -/
def summaryPrompt : AnalysisPrompt :=
  ⟨("summary").toList,
   ("You are a legal summary specialist. Create a comprehensive yet concise executive summary of the judgment suitable for lawyers and law students.").toList,
   ("Generate an executive summary from this judgment:\n\nJUDGMENT TEXT:\n\x7bjudgmentChunks\x7d\n\nANALYSIS CONTEXT:\nMetadata: \x7bmetadata\x7d\nFacts: \x7bfacts\x7d\nTimeline: \x7btimeline\x7d\nIssues: \x7bissues\x7d\nArguments: \x7barguments\x7d\nRatio: \x7bratio\x7d\nObiter: \x7bobiter\x7d\nStatutes: \x7bstatutes\x7d\nPrecedents: \x7bprecedents\x7d\n\nGenerate and return JSON with:\n1. headnote: One-paragraph summary (150-200 words) covering facts, issues, and decision\n2. keyTakeaways: Array of 3-5 bullet points with main legal principles\n3. practicalImplications: How this judgment affects legal practice\n4. relatedAreas: Legal domains this judgment impacts (e.g., \"Criminal Law\", \"Evidence Law\")\n5. verdict: Final outcome (e.g., \"Appeal allowed\", \"Writ dismissed\")\n6. anchors: Citations to key paragraphs supporting the summary\n\nMake it accessible but legally accurate.").toList,
   ("JSON").toList,
   [("headnote").toList, ("keyTakeaways").toList, ("practicalImplications").toList, ("relatedAreas").toList, ("verdict").toList, ("anchors").toList]⟩

/-- The string-keyed template catalog `analysisPrompts`. -/
def analysisPrompts (step : List Char) : Option AnalysisPrompt :=
  if step = ("metadata").toList then some metadataPrompt
  else if step = ("facts").toList then some factsPrompt
  else if step = ("timeline").toList then some timelinePrompt
  else if step = ("issues").toList then some issuesPrompt
  else if step = ("arguments").toList then some argumentsPrompt
  else if step = ("ratio").toList then some ratioPrompt
  else if step = ("obiter").toList then some obiterPrompt
  else if step = ("statutes").toList then some statutesPrompt
  else if step = ("precedents").toList then some precedentsPrompt
  else if step = ("summary").toList then some summaryPrompt
  else none

/-- `analysisStepOrder`: the fixed step execution order. -/
def analysisStepOrder : List (List Char) :=
  [("metadata").toList, ("facts").toList, ("timeline").toList, ("issues").toList,
   ("arguments").toList, ("ratio").toList, ("obiter").toList, ("statutes").toList,
   ("precedents").toList, ("summary").toList]

/-- The serialization of a context value in the prompt: a string
value is inserted as is, any other value is serialized with
`JSON.stringify(value, null, 2)`. -/
def ctxSerialize (v : Json) : List Char :=
  match v with
  | .str s => s
  | v => jsonStringify v

/-- The context-substitution loop of `generateAnalysisPrompt`:
`replaceAll` of each entry's placeholder by its serialized value, in
entry order. -/
def replaceContext : List (List Char × Json) → List Char → List Char
  | [], u => u
  | (key, value) :: rest, u =>
      replaceContext rest (replaceAll (ph key) (ctxSerialize value) u)

/-- `generateAnalysisPrompt` from the source: look up the step's
template (failing on an unknown step), substitute the first occurrence
of the judgment-chunks placeholder, then substitute every context
entry's placeholder. -/
def generateAnalysisPrompt (step judgmentChunks : List Char)
    (context : List (List Char × Json)) :
    Except (List Char) (List Char × List Char × List Char) :=
  match analysisPrompts step with
  | none => .error (("Unknown analysis step: ").toList ++ step)
  | some t =>
      let u0 := replaceFirst phJudgmentChunks judgmentChunks t.userPromptTemplate
      let u := replaceContext context u0
      .ok (t.systemPrompt, u, t.outputFormat)

/-- No nonempty proper prefix of `pat` is a suffix of `s`: a pattern
occurrence can then never straddle the right edge of `s` into a
following string. -/
def REdge (pat s : List Char) : Prop :=
  ∀ k, k < pat.length → 0 < k → ¬ pat.take k <:+ s

/-- `s` neither contains `pat` nor ends in a nonempty proper prefix
of it. -/
def CleanFor (pat s : List Char) : Prop :=
  ¬ pat <:+: s ∧ REdge pat s

/-- `s` is clean for the judgment-chunks placeholder and for every
step placeholder: none of them occurs in `s`, not even partially at
its right edge.  This is the hygiene hypothesis on judgment text and
serialized step results under which substitution is compositional. -/
def PatsClean (s : List Char) : Prop :=
  CleanFor phJudgmentChunks s ∧
  ∀ name ∈ [("metadata").toList, ("facts").toList, ("timeline").toList, ("issues").toList,
    ("arguments").toList, ("ratio").toList, ("obiter").toList, ("statutes").toList,
    ("precedents").toList, ("summary").toList], CleanFor (ph name) s

instance (pat s : List Char) : Decidable (REdge pat s) := by
  unfold REdge
  infer_instance

instance (pat s : List Char) : Decidable (CleanFor pat s) := by
  unfold CleanFor
  infer_instance

instance (s : List Char) : Decidable (PatsClean s) := by
  unfold PatsClean
  infer_instance

/-- The earlier steps whose placeholder occurs in a step's user prompt
template: metadata feeds facts; facts feeds timeline and issues;
issues feeds arguments and ratio; ratio feeds obiter; statutes and
precedents take no prior context; summary references all nine prior
steps.  (This table follows the transcribed templates.) -/
def stepDeps (step : List Char) : List (List Char) :=
  if step = ("facts").toList then [("metadata").toList]
  else if step = ("timeline").toList then [("facts").toList]
  else if step = ("issues").toList then [("facts").toList]
  else if step = ("arguments").toList then [("issues").toList]
  else if step = ("ratio").toList then [("issues").toList]
  else if step = ("obiter").toList then [("ratio").toList]
  else if step = ("summary").toList then
    [("metadata").toList, ("facts").toList, ("timeline").toList, ("issues").toList,
     ("arguments").toList, ("ratio").toList, ("obiter").toList, ("statutes").toList,
     ("precedents").toList]
  else []

/-! ### The step orchestrator -/

/-- `AnalysisStepResult` from the analysis service.  `tokensUsed`
reads `usage.total_tokens` off the returned chat *message*, which
carries no usage field, so it is always 0. -/
structure AnalysisStepResult where
  step : List Char
  result : Json
  anchors : List (List Char × Json)
  model : List Char
  tokensUsed : Nat
  timestamp : List Char
deriving DecidableEq

/-- `CompleteAnalysisResult` from the analysis service; the record of
step results is an insertion-ordered association list. -/
structure CompleteAnalysisResult where
  steps : List (List Char × AnalysisStepResult)
  summary : Json
  totalTokensUsed : Nat
  completedAt : List Char
deriving DecidableEq

/-- The generation backend: system prompt, user prompt and a global
call index (modelling that a live backend may answer each call
differently) to either an error or a chat message content (which may
be absent). -/
def Backend : Type :=
  List Char → List Char → Nat → Except (List Char) (Option (List Char))

/-- The platform JSON parser: either the parsed value or the parse
error's message. -/
def ParseJson : Type :=
  List Char → Except (List Char) Json

/-- `MAX_CHUNKS_PER_STEP`. -/
def MAX_CHUNKS_PER_STEP : Nat := 20

/-- The model identifier used for every online step. -/
def MODEL : List Char := ("openai/gpt-4o-mini").toList

/-- `selectRelevantChunks`: positional selection of a bounded chunk
window per step — front for metadata/summary, an early-offset window
for facts/timeline, the tail for ratio/obiter/precedents, the middle
otherwise.  (The 0.2 factor is floating point in the source; the
model uses exact arithmetic.) -/
def selectRelevantChunks (chunks : List JudgmentChunk) (step : List Char) : List JudgmentChunk :=
  if step = ("metadata").toList ∨ step = ("summary").toList then
    chunks.take MAX_CHUNKS_PER_STEP
  else if step = ("facts").toList ∨ step = ("timeline").toList then
    (chunks.drop (chunks.length * 2 / 10)).take MAX_CHUNKS_PER_STEP
  else if step = ("ratio").toList ∨ step = ("obiter").toList ∨ step = ("precedents").toList then
    chunks.drop (chunks.length - MAX_CHUNKS_PER_STEP)
  else
    (chunks.drop ((chunks.length - MAX_CHUNKS_PER_STEP) / 2)).take MAX_CHUNKS_PER_STEP

/-- JavaScript `Array.join` with a separator. -/
def joinSep (sep : List Char) : List (List Char) → List Char
  | [] => []
  | [x] => x
  | x :: y :: rest => x ++ sep ++ joinSep sep (y :: rest)

/-- The chunk text handed to a step's prompt. -/
def chunksTextFor (chunks : List JudgmentChunk) (step : List Char) : List Char :=
  joinSep (("\n\n").toList) ((selectRelevantChunks chunks step).map (fun c => c.text))

/-- The default `retries` count of `callLLMWithRetry`. -/
def CALL_RETRIES : Nat := 2

/-- `callLLMWithRetry`: retry the backend call up to `retries` more
times on an error (the blocking backoff delay is not modelled); the
step name is used only for logging.  Returns the outcome and the new
global call index. -/
def callLLMWithRetry (backend : Backend) (system user step : List Char) :
    Nat → Nat → Except (List Char) (Option (List Char)) × Nat
  | retries, callIdx =>
      match backend system user callIdx with
      | .ok msg => (.ok msg, callIdx + 1)
      | .error e =>
          match retries with
          | 0 => (.error e, callIdx + 1)
          | r + 1 => callLLMWithRetry backend system user step r (callIdx + 1)

/-- `parseAndValidateResponse`: missing content and parse failures are
step errors naming the step; the required-field check only emits
warnings and does not alter the result. -/
def parseAndValidateResponse (parseJson : ParseJson) (content : Option (List Char))
    (step : List Char) : Except (List Char) Json :=
  match content with
  | none => .error (("No content in LLM response for step ").toList ++ step)
  | some c =>
      match parseJson c with
      | .ok parsed => .ok parsed
      | .error m =>
          .error (("Failed to parse JSON response for step ").toList ++ step ++
            (": ").toList ++ m)

/-- The error message `analyzeJudgment` wraps every step failure in. -/
def stepFailMsg (step e : List Char) : List Char :=
  ("Analysis step \x27").toList ++ step ++ ("\x27 failed: ").toList ++ e

/-- First binding of a step name among the stored step results. -/
def lookupAssoc : List (List Char × AnalysisStepResult) → List Char → Option AnalysisStepResult
  | [], _ => none
  | (k, v) :: rest, key => if k = key then some v else lookupAssoc rest key

/-- The summary surfaced in the complete result:
`stepResults.summary?.result || null`. -/
def summaryOf (stepResults : List (List Char × AnalysisStepResult)) : Json :=
  match lookupAssoc stepResults (("summary").toList) with
  | some r => if jsTruthy r.result then r.result else Json.null
  | none => Json.null

/-- The instrumented outcome of an `analyzeJudgment` run: the result
or wrapped step error, the step results completed before any failure
(held only in memory), the log of (step, context snapshot, user
prompt) per executed step, and the number of backend calls made. -/
structure RunOutcome where
  outcome : Except (List Char) CompleteAnalysisResult
  completed : List AnalysisStepResult
  promptLog : List (List Char × List (List Char × Json) × List Char)
  callCount : Nat

/-- The step loop of `analyzeJudgment` (online path; the offline
branch is gated on an environment flag that is unset in the modelled
configuration).  Each step selects chunks, assembles its prompt from
the context of all previously completed steps, calls the backend with
up to 2 retries, parses and validates the response, extracts anchors,
then appends its result to the record and to the context.  Any step
error wraps into a message naming the step and aborts the remaining
steps. -/
def runSteps (backend : Backend) (parseJson : ParseJson) (now : List Char)
    (chunks : List JudgmentChunk) :
    List (List Char) → List (List Char × AnalysisStepResult) →
    List (List Char × Json) → Nat → Nat →
    List (List Char × List (List Char × Json) × List Char) → RunOutcome
  | [], results, _, tokens, calls, log =>
      { outcome := .ok
          { steps := results
            summary := summaryOf results
            totalTokensUsed := tokens
            completedAt := now }
        completed := results.map Prod.snd
        promptLog := log
        callCount := calls }
  | step :: rest, results, context, tokens, calls, log =>
      match generateAnalysisPrompt step (chunksTextFor chunks step) context with
      | .error e =>
          { outcome := .error (stepFailMsg step e)
            completed := results.map Prod.snd
            promptLog := log
            callCount := calls }
      | .ok (system, user, _) =>
          match callLLMWithRetry backend system user step CALL_RETRIES calls with
          | (.error e, calls2) =>
              { outcome := .error (stepFailMsg step e)
                completed := results.map Prod.snd
                promptLog := log ++ [(step, context, user)]
                callCount := calls2 }
          | (.ok content, calls2) =>
              match parseAndValidateResponse parseJson content step with
              | .error e =>
                  { outcome := .error (stepFailMsg step e)
                    completed := results.map Prod.snd
                    promptLog := log ++ [(step, context, user)]
                    callCount := calls2 }
              | .ok parsedResult =>
                  runSteps backend parseJson now chunks rest
                    (results ++ [(step,
                      { step := step
                        result := parsedResult
                        anchors := extractAnchors parsedResult
                        model := MODEL
                        tokensUsed := 0
                        timestamp := now })])
                    (context ++ [(step, parsedResult)])
                    (tokens + 0) calls2 (log ++ [(step, context, user)])

/-- `analyzeJudgment` over the fixed step order (the judgment id is
used only in logging). -/
def analyzeJudgment (backend : Backend) (parseJson : ParseJson)
    (now judgmentId : List Char) (chunks : List JudgmentChunk) : RunOutcome :=
  runSteps backend parseJson now chunks analysisStepOrder [] [] 0 0 []

/-- The status record the service writes through the storage
collaborator. -/
structure AnalysisRecord where
  status : List Char
  result : Option CompleteAnalysisResult
  error : Option (List Char)

/-- `runFullAnalysis` (with extraction result and chunks provided by
the caller): run the pipeline, then update the status record — on
success status completed with the result and a cleared error; on any
failure status failed with the error message only, leaving the
record's result field unchanged (the update writes only status and
error). -/
def runFullAnalysis (backend : Backend) (parseJson : ParseJson)
    (now judgmentId analysisId : List Char) (chunks : List JudgmentChunk)
    (initial : AnalysisRecord) : AnalysisRecord × RunOutcome :=
  let run := analyzeJudgment backend parseJson now judgmentId chunks
  match run.outcome with
  | .ok r =>
      ({ status := ("completed").toList, result := some r, error := none }, run)
  | .error e =>
      ({ status := ("failed").toList, result := initial.result, error := some e }, run)

/-! ### Concrete inputs used by witnesses and counterexamples -/

/-- A judgment id used by concrete instances. -/
def demoJid : List Char := [ '7' ]

/-- A 1001-character paragraph, above `MAX_CHUNK_SIZE`. -/
def demoParaLong : List Char := List.replicate 1001 'a'

/-- A long paragraph starting with a space: the window trim drops that
space from the first chunk's text although it lies in no overlap. -/
def demoParaC1 : List Char := ' ' :: List.replicate 1000 'a'

/-- A one-page document whose only paragraph is `demoParaC1`. -/
def demoPagesC1 : List PageContent := [⟨1, demoParaC1, .digital⟩]

/-- A two-page document: two short numbered paragraphs, then one long
paragraph. -/
def demoPages : List PageContent :=
  [⟨1, ("1. Facts\n\n2. Issues").toList, .digital⟩,
   ⟨2, List.replicate 2500 'b', .digital⟩]

/-- A digital strategy result whose single page holds exactly
`MIN_TEXT_LENGTH` characters: exactly at the decision threshold. -/
def demoDigitalAt : StrategyResult :=
  ⟨[⟨1, List.replicate 50 'x', .digital⟩], 1, none⟩

/-- A digital strategy result whose single page holds 51 characters:
strictly above the decision threshold. -/
def demoDigitalAbove : StrategyResult :=
  ⟨[⟨1, List.replicate 51 'x', .digital⟩], 1, none⟩

/-- An OCR strategy result used as the fallback in concrete runs. -/
def demoOcr : StrategyResult :=
  ⟨[⟨1, [ 'o', 'c', 'r' ], .ocr⟩], 1, none⟩

/-- A backend that always returns (non-JSON) text successfully. -/
def demoBackendNonJson : Backend :=
  fun _ _ _ => .ok (some (("not json").toList))

/-- A parser that rejects everything, as JSON.parse does on the text
the backend above returns. -/
def demoParseFail : ParseJson :=
  fun _ => .error (("Unexpected token").toList)

/-- A backend whose first call returns a recognizable content and
whose every later call fails. -/
def demoBackendFirstGood : Backend :=
  fun _ _ i => if i = 0 then .ok (some [ 'J' ]) else .error (("boom").toList)

/-- A parser accepting exactly the recognizable content above. -/
def demoParseOne : ParseJson :=
  fun s => if s = [ 'J' ] then .ok (Json.num 1) else .error (("bad").toList)

/-- A fresh status record as created before a run. -/
def demoRecord : AnalysisRecord :=
  ⟨("processing").toList, none, none⟩

/-- A parsed result whose nested sub-object carries an `anchor` field
holding null: it is skipped by the truthiness test. -/
def demoAnchorNull : Json :=
  Json.obj (JsonObj.cons [ 'a' ]
    (Json.obj (JsonObj.cons anchorKey Json.null JsonObj.nil)) JsonObj.nil)

/-- A parsed result whose nested sub-object carries a truthy
`anchor` field. -/
def demoAnchored : Json :=
  Json.obj (JsonObj.cons [ 'a' ]
    (Json.obj (JsonObj.cons anchorKey (Json.num 1) JsonObj.nil)) JsonObj.nil)


/-! ### Prompt-template segments and context lookup -/

instance exceptDecEq {ε α : Type} [DecidableEq ε] [DecidableEq α] :
    DecidableEq (Except ε α)
  | Except.error a, Except.error b =>
      if h : a = b then isTrue (h ▸ rfl)
      else isFalse (fun hc => h (Except.error.inj hc))
  | Except.error _, Except.ok _ => isFalse (fun hc => Except.noConfusion hc)
  | Except.ok _, Except.error _ => isFalse (fun hc => Except.noConfusion hc)
  | Except.ok a, Except.ok b =>
      if h : a = b then isTrue (h ▸ rfl)
      else isFalse (fun hc => h (Except.ok.inj hc))

/-- First binding of a key in a prompt context. -/
def lookupCtx : List (List Char × Json) → List Char → Option Json
  | [], _ => none
  | (k, v) :: rest, key => if k = key then some v else lookupCtx rest key

/-- A prompt-template segment: literal text or a step placeholder. -/
inductive Seg where
  | lit : List Char → Seg
  | hole : List Char → Seg
deriving DecidableEq

/-- A segment under a context: bound holes carry their serialized
value, unbound holes remain placeholders, literals stand as they
are. -/
def segExpand (ctx : List (List Char × Json)) : Seg → List Char
  | Seg.lit s => s
  | Seg.hole k =>
      match lookupCtx ctx k with
      | some v => ctxSerialize v
      | none => ph k

/-- Concatenation of a list of strings. -/
def joinL : List (List Char) → List Char
  | [] => []
  | s :: rest => s ++ joinL rest

/-- `s` is clean for every step placeholder: none of them occurs in
`s`, not even partially at its right edge. -/
def StepClean (s : List Char) : Prop :=
  ∀ name ∈ analysisStepOrder, CleanFor (ph name) s

instance (s : List Char) : Decidable (StepClean s) := by
  unfold StepClean
  infer_instance

/-- Chunk text used by the C2 instances. -/
def demoJC : List Char := ("CHUNKTEXT").toList

/-- A context holding markers as the metadata and facts step
results, as the timeline step receives them. -/
def demoCtxC2 : List (List Char × Json) :=
  [((("metadata").toList), Json.str (("R0").toList)),
   ((("facts").toList), Json.str (("R1").toList))]

/-- The user prompt assembled for the timeline step over
`demoCtxC2`. -/
def demoPromptC2 : List Char :=
  match generateAnalysisPrompt (("timeline").toList) demoJC demoCtxC2 with
  | Except.ok r => r.2.1
  | Except.error _ => []

/-- The metadata-step user prompt of a run over empty chunks. -/
def demoUser0 : List Char :=
  replaceFirst phJudgmentChunks (chunksTextFor [] (("metadata").toList))
    metadataPrompt.userPromptTemplate

/-- The first prompt-log entry of the failing demo runs. -/
def demoEntryC2 : List Char × List (List Char × Json) × List Char :=
  ((("metadata").toList), [], demoUser0)

/-! ### General lemmas about the string primitives -/

theorem substringJS_append (s : List Char) (a b c : Nat) (hab : a ≤ b) (hbc : b ≤ c) :
    substringJS s a b ++ substringJS s b c = substringJS s a c := by
  unfold substringJS
  have h1 : c - a = (b - a) + (c - b) := by omega
  rw [h1, List.take_add]
  congr 2
  rw [List.drop_drop]
  congr 1
  omega

theorem substringJS_drop (s : List Char) (a b pe : Nat) (h : a ≤ pe) :
    (substringJS s a b).drop (pe - a) = substringJS s pe b := by
  unfold substringJS
  rw [List.drop_take, List.drop_drop]
  have h1 : a + (pe - a) = pe := by omega
  have h2 : b - a - (pe - a) = b - pe := by omega
  rw [h1, h2]

theorem substringJS_all (s : List Char) : substringJS s 0 s.length = s := by
  simp [substringJS]

theorem substringJS_nil (s : List Char) (a : Nat) : substringJS s a a = [] := by
  simp [substringJS]

theorem substringJS_length (s : List Char) (a b : Nat) :
    (substringJS s a b).length = min (b - a) (s.length - a) := by
  simp [substringJS]

theorem findSentenceEnd_le :
    ∀ (s : List Char) (i : Nat), findSentenceEnd s = some i → i + 2 ≤ s.length
  | [], i, h => by simp [findSentenceEnd] at h
  | [c], i, h => by simp [findSentenceEnd] at h
  | c1 :: c2 :: rest, i, h => by
      by_cases hc : ((c1 = '.' || c1 = '!' || c1 = '?') && isSpaceJS c2) = true
      · simp only [findSentenceEnd, hc, if_pos] at h
        simp only [Option.some.injEq] at h
        simp [← h]
      · simp only [findSentenceEnd, hc, if_neg, Bool.not_eq_true] at h
        rw [Option.map_eq_some'] at h
        obtain ⟨j, hj, hji⟩ := h
        have := findSentenceEnd_le (c2 :: rest) j hj
        simp only [List.length_cons] at this ⊢
        omega

/-! ### Window bounds of the long-paragraph splitter -/

theorem rawEnd_le (para : List Char) (pos : Nat) : rawEnd para pos ≤ para.length := by
  simp [rawEnd]

theorem rawEnd_gt (para : List Char) (pos : Nat) (h : pos < para.length) :
    pos < rawEnd para pos := by
  simp only [rawEnd, MAX_CHUNK_SIZE]
  omega

theorem rawEnd_eq_of_lt (para : List Char) (pos : Nat) (h : rawEnd para pos < para.length) :
    rawEnd para pos = pos + MAX_CHUNK_SIZE := by
  simp only [rawEnd] at h ⊢
  omega

theorem searchStartOf_ge (para : List Char) (pos : Nat) :
    pos + MIN_CHUNK_SIZE ≤ searchStartOf para pos := by
  simp [searchStartOf]

theorem winEnd_cases (para : List Char) (pos : Nat) :
    winEnd para pos = rawEnd para pos ∨
    (rawEnd para pos < para.length ∧
      ∃ i, findSentenceEnd (substringJS para (searchStartOf para pos) (rawEnd para pos)) = some i ∧
        winEnd para pos = searchStartOf para pos + i + 2) := by
  unfold winEnd
  split
  · rename_i h0
    split
    · rename_i i hf
      right
      exact ⟨h0, i, hf, rfl⟩
    · left; rfl
  · left; rfl

theorem winEnd_le (para : List Char) (pos : Nat) : winEnd para pos ≤ para.length := by
  rcases winEnd_cases para pos with h | ⟨h0, i, hf, h⟩
  · rw [h]; exact rawEnd_le para pos
  · have hle := findSentenceEnd_le _ _ hf
    rw [substringJS_length] at hle
    have := rawEnd_le para pos
    omega

theorem winEnd_gt (para : List Char) (pos : Nat) (h : pos < para.length) :
    pos < winEnd para pos := by
  have h1 := rawEnd_gt para pos h
  have h2 := searchStartOf_ge para pos
  rcases winEnd_cases para pos with he | ⟨h0, i, hf, he⟩
  · omega
  · simp only [MIN_CHUNK_SIZE] at h2; omega

theorem winEnd_lower (para : List Char) (pos : Nat) (h : winEnd para pos < para.length) :
    pos + 202 ≤ winEnd para pos := by
  have h2 := searchStartOf_ge para pos
  rcases winEnd_cases para pos with he | ⟨h0, i, hf, he⟩
  · rw [he] at h ⊢
    have := rawEnd_eq_of_lt para pos h
    simp only [MAX_CHUNK_SIZE] at this
    omega
  · simp only [MIN_CHUNK_SIZE] at h2
    omega

theorem nextPos_ge (para : List Char) (pos : Nat) :
    pos + MIN_CHUNK_SIZE ≤ nextPos para pos := by
  simp [nextPos]

theorem nextPos_lt_winEnd (para : List Char) (pos : Nat)
    (h : winEnd para pos < para.length) : nextPos para pos < winEnd para pos := by
  have h1 := winEnd_lower para pos h
  simp only [nextPos, OVERLAP_SIZE, MIN_CHUNK_SIZE]
  omega

@[simp] theorem windowChunk_anchor (para : List Char) (pg pn : Nat) (jid : List Char)
    (ctr pos : Nat) :
    (windowChunk para pg pn jid ctr pos).anchor = ⟨pg, pn, pos, winEnd para pos⟩ := rfl

/-! ### The master invariant of the long-paragraph window loop -/

theorem splitLongParaGo_spec (para : List Char) (pg pn : Nat) (jid : List Char) :
    ∀ (fuel ctr pos : Nat), pos < para.length → para.length - pos ≤ fuel →
      WindowChain para pos (splitLongParaGo para pg pn jid fuel ctr pos) ∧
      (∀ c0, (splitLongParaGo para pg pn jid fuel ctr pos).head? = some c0 →
        c0.anchor.startChar = pos ∧ c0.anchor.endChar = winEnd para pos) ∧
      (∀ c ∈ splitLongParaGo para pg pn jid fuel ctr pos,
        c.anchor.pageNumber = pg ∧ c.anchor.paragraphNumber = pn ∧
        c.metadata.pageNumber = pg ∧ c.metadata.paragraphNumber = pn ∧
        c.text = jsTrim (windowOf para c)) ∧
      (∀ (i : Nat) (c : JudgmentChunk), (splitLongParaGo para pg pn jid fuel ctr pos)[i]? = some c →
        c.chunkId = mkChunkId jid pg pn (ctr + i)) ∧
      splitLongParaGo para pg pn jid fuel ctr pos ≠ [] := by
  intro fuel
  induction fuel with
  | zero => intro ctr pos hpos hfuel; omega
  | succ fuel ih =>
      intro ctr pos hpos hfuel
      have hle := winEnd_le para pos
      have hgt := winEnd_gt para pos hpos
      by_cases hend : para.length ≤ winEnd para pos
      · have hrw : splitLongParaGo para pg pn jid (fuel + 1) ctr pos =
            [windowChunk para pg pn jid ctr pos] := by
          simp [splitLongParaGo, hpos, hend]
        rw [hrw]
        have heq : winEnd para pos = para.length := by omega
        refine ⟨?_, ?_, ?_, ?_, ?_⟩
        · refine ⟨?_, ?_, hle, heq⟩
          · simp [windowChunk_anchor]
          · simp only [windowChunk_anchor]
            omega
        · intro c0 hc0
          simp only [List.head?_cons, Option.some.injEq] at hc0
          subst hc0
          exact ⟨rfl, rfl⟩
        · intro c hc
          simp only [List.mem_singleton] at hc
          subst hc
          exact ⟨rfl, rfl, rfl, rfl, rfl⟩
        · intro i c hc
          match i with
          | 0 =>
              simp only [List.getElem?_cons_zero, Option.some.injEq] at hc
              subst hc
              simp [windowChunk]
          | j + 1 => simp at hc
        · simp
      · push_neg at hend
        have hnext_lt := nextPos_lt_winEnd para pos hend
        have hnext_ge := nextPos_ge para pos
        have hnext_len : nextPos para pos < para.length := by omega
        have hfuel2 : para.length - nextPos para pos ≤ fuel := by
          simp only [MIN_CHUNK_SIZE] at hnext_ge
          omega
        have hrw : splitLongParaGo para pg pn jid (fuel + 1) ctr pos =
            windowChunk para pg pn jid ctr pos ::
              splitLongParaGo para pg pn jid fuel (ctr + 1) (nextPos para pos) := by
          simp [splitLongParaGo, hpos]
          omega
        obtain ⟨ihChain, ihHead, ihMem, ihIds, ihNe⟩ := ih (ctr + 1) (nextPos para pos) hnext_len hfuel2
        rw [hrw]
        refine ⟨?_, ?_, ?_, ?_, ?_⟩
        · refine ⟨?_, ?_, hle, ?_⟩
          · simp [windowChunk_anchor]
          · simp only [windowChunk_anchor]
            omega
          -- WindowChain continues from the window end; the tail starts at
          -- nextPos and its first window reaches at least to the current end.
          cases htail : splitLongParaGo para pg pn jid fuel (ctr + 1) (nextPos para pos) with
          | nil => exact absurd htail ihNe
          | cons c1 rest =>
              rw [htail] at ihChain ihHead
              obtain ⟨hs1, he1⟩ := ihHead c1 (by simp)
              obtain ⟨hA, hB, hC, hD⟩ := ihChain
              have hreach : winEnd para pos ≤ c1.anchor.endChar := by
                rw [he1]
                by_cases hcase : winEnd para (nextPos para pos) < para.length
                · have := winEnd_lower para (nextPos para pos) hcase
                  have hmax : winEnd para pos - OVERLAP_SIZE ≤ nextPos para pos := by
                    simp [nextPos]
                  simp only [OVERLAP_SIZE] at hmax
                  omega
                · push_neg at hcase
                  have := winEnd_le para (nextPos para pos)
                  omega
              refine ⟨?_, ?_, hC, hD⟩
              · simp only [windowChunk_anchor]
                omega
              · simp only [windowChunk_anchor]
                exact hreach
        · intro c0 hc0
          simp only [List.head?_cons, Option.some.injEq] at hc0
          subst hc0
          exact ⟨rfl, rfl⟩
        · intro c hc
          rcases List.mem_cons.mp hc with hc | hc
          · subst hc
            exact ⟨rfl, rfl, rfl, rfl, rfl⟩
          · exact ihMem c hc
        · intro i c hc
          match i with
          | 0 =>
              simp only [List.getElem?_cons_zero, Option.some.injEq] at hc
              subst hc
              simp [windowChunk]
          | j + 1 =>
              simp only [List.getElem?_cons_succ] at hc
              have := ihIds j c hc
              rw [this]
              congr 1
              omega
        · simp

theorem splitLongParaGo_length_le (para : List Char) (pg pn : Nat) (jid : List Char) :
    ∀ (fuel ctr pos : Nat),
      (splitLongParaGo para pg pn jid fuel ctr pos).length ≤ (para.length - pos + 199) / 200 := by
  intro fuel
  induction fuel with
  | zero => intro ctr pos; simp [splitLongParaGo]
  | succ fuel ih =>
      intro ctr pos
      by_cases hpos : pos < para.length
      · by_cases hend : para.length ≤ winEnd para pos
        · have hrw : splitLongParaGo para pg pn jid (fuel + 1) ctr pos =
              [windowChunk para pg pn jid ctr pos] := by
            simp [splitLongParaGo, hpos, hend]
          rw [hrw]
          have : (200 : Nat) ≤ para.length - pos + 199 := by omega
          have := Nat.one_le_div_iff (by omega : (0 : Nat) < 200) |>.mpr this
          simpa using this
        · push_neg at hend
          have h202 := winEnd_lower para pos hend
          have hnge := nextPos_ge para pos
          simp only [MIN_CHUNK_SIZE] at hnge
          have hrw : splitLongParaGo para pg pn jid (fuel + 1) ctr pos =
              windowChunk para pg pn jid ctr pos ::
                splitLongParaGo para pg pn jid fuel (ctr + 1) (nextPos para pos) := by
            simp [splitLongParaGo, hpos]
            omega
          rw [hrw]
          simp only [List.length_cons]
          have htail := ih (ctr + 1) (nextPos para pos)
          have hnum : para.length - nextPos para pos + 199 + 200 ≤ para.length - pos + 199 := by
            omega
          calc (splitLongParaGo para pg pn jid fuel (ctr + 1) (nextPos para pos)).length + 1
              ≤ (para.length - nextPos para pos + 199) / 200 + 1 := by omega
            _ = (para.length - nextPos para pos + 199 + 200) / 200 := by
                rw [Nat.add_div_right _ (by omega)]
            _ ≤ (para.length - pos + 199) / 200 := Nat.div_le_div_right hnum
      · simp [splitLongParaGo, hpos]

theorem splitLongParaGo_head_start (para : List Char) (pg pn : Nat) (jid : List Char) :
    ∀ (fuel ctr pos : Nat) (c0 : JudgmentChunk),
      (splitLongParaGo para pg pn jid fuel ctr pos).head? = some c0 →
      c0.anchor.startChar = pos ∧ c0.anchor.endChar = winEnd para pos := by
  intro fuel ctr pos c0 h
  match fuel with
  | 0 => simp [splitLongParaGo] at h
  | fuel + 1 =>
      by_cases hpos : pos < para.length
      · by_cases hend : para.length ≤ winEnd para pos
        · have hrw : splitLongParaGo para pg pn jid (fuel + 1) ctr pos =
              [windowChunk para pg pn jid ctr pos] := by
            simp [splitLongParaGo, hpos, hend]
          rw [hrw] at h
          simp only [List.head?_cons, Option.some.injEq] at h
          subst h
          exact ⟨rfl, rfl⟩
        · push_neg at hend
          have hrw : splitLongParaGo para pg pn jid (fuel + 1) ctr pos =
              windowChunk para pg pn jid ctr pos ::
                splitLongParaGo para pg pn jid fuel (ctr + 1) (nextPos para pos) := by
            simp [splitLongParaGo, hpos]
            omega
          rw [hrw] at h
          simp only [List.head?_cons, Option.some.injEq] at h
          subst h
          exact ⟨rfl, rfl⟩
      · simp [splitLongParaGo, hpos] at h

theorem splitLongParaGo_advance (para : List Char) (pg pn : Nat) (jid : List Char) :
    ∀ (fuel ctr pos i : Nat) (c c' : JudgmentChunk),
      (splitLongParaGo para pg pn jid fuel ctr pos)[i]? = some c →
      (splitLongParaGo para pg pn jid fuel ctr pos)[i + 1]? = some c' →
      c.anchor.startChar + MIN_CHUNK_SIZE ≤ c'.anchor.startChar := by
  intro fuel
  induction fuel with
  | zero => intro ctr pos i c c' hc hc'; simp [splitLongParaGo] at hc
  | succ fuel ih =>
      intro ctr pos i c c' hc hc'
      by_cases hpos : pos < para.length
      · by_cases hend : para.length ≤ winEnd para pos
        · have hrw : splitLongParaGo para pg pn jid (fuel + 1) ctr pos =
              [windowChunk para pg pn jid ctr pos] := by
            simp [splitLongParaGo, hpos, hend]
          rw [hrw] at hc'
          match i with
          | 0 => simp at hc'
          | j + 1 => simp at hc'
        · push_neg at hend
          have hnext_lt := nextPos_lt_winEnd para pos hend
          have hnext_len : nextPos para pos < para.length := by
            have := winEnd_le para pos; omega
          have hrw : splitLongParaGo para pg pn jid (fuel + 1) ctr pos =
              windowChunk para pg pn jid ctr pos ::
                splitLongParaGo para pg pn jid fuel (ctr + 1) (nextPos para pos) := by
            simp [splitLongParaGo, hpos]
            omega
          rw [hrw] at hc hc'
          match i with
          | 0 =>
              simp only [List.getElem?_cons_zero, Option.some.injEq] at hc
              simp only [List.getElem?_cons_succ] at hc'
              subst hc
              -- the second chunk is the head of the tail, which starts at nextPos
              have hhead : (splitLongParaGo para pg pn jid fuel (ctr + 1) (nextPos para pos)).head? = some c' := by
                rw [List.head?_eq_getElem?]
                exact hc'
              obtain ⟨hs1, _⟩ :=
                splitLongParaGo_head_start para pg pn jid fuel (ctr + 1) (nextPos para pos) c' hhead
              have hnge := nextPos_ge para pos
              simp only [windowChunk_anchor]
              omega
          | j + 1 =>
              simp only [List.getElem?_cons_succ] at hc hc'
              exact ih (ctr + 1) (nextPos para pos) j c c' hc hc'
      · have hrw : splitLongParaGo para pg pn jid (fuel + 1) ctr pos = [] := by
          simp [splitLongParaGo, hpos]
        rw [hrw] at hc
        simp at hc

/-! ### Trim idempotence -/

theorem dropWhile_dropWhile (p : Char → Bool) :
    ∀ l : List Char, (l.dropWhile p).dropWhile p = l.dropWhile p
  | [] => rfl
  | c :: rest => by
      by_cases h : p c = true
      · simp [List.dropWhile_cons, h, dropWhile_dropWhile p rest]
      · simp [List.dropWhile_cons, h]

theorem head_dropWhile_false (p : Char → Bool) :
    ∀ (l : List Char) (c : Char), (l.dropWhile p).head? = some c → p c = false
  | [], c, h => by simp at h
  | a :: rest, c, h => by
      by_cases hp : p a = true
      · rw [List.dropWhile_cons, if_pos hp] at h
        exact head_dropWhile_false p rest c h
      · rw [List.dropWhile_cons, if_neg hp] at h
        simp only [List.head?_cons, Option.some.injEq] at h
        subst h
        simpa using hp

theorem dropWhile_eq_self_of_head (p : Char → Bool) (l : List Char)
    (h : ∀ c, l.head? = some c → p c = false) : l.dropWhile p = l := by
  cases l with
  | nil => rfl
  | cons a rest =>
      have := h a rfl
      simp [List.dropWhile_cons, this]

/-- Trailing trim only: strip whitespace from the end. -/
def trimRight (s : List Char) : List Char :=
  (s.reverse.dropWhile isSpaceJS).reverse

theorem jsTrim_eq_trimRight_dropWhile (s : List Char) :
    jsTrim s = trimRight (s.dropWhile isSpaceJS) := rfl

theorem trimRight_prefix (s : List Char) : trimRight s <+: s := by
  have h1 : s.reverse.dropWhile isSpaceJS <:+ s.reverse := List.dropWhile_suffix _
  have h2 := h1.reverse
  simpa [trimRight] using h2

theorem trimRight_head (s : List Char) (c : Char) (h : (trimRight s).head? = some c) :
    s.head? = some c := by
  have hp := trimRight_prefix s
  obtain ⟨t, ht⟩ := hp
  cases hr : trimRight s with
  | nil => rw [hr] at h; simp at h
  | cons a rest =>
      rw [hr] at h ht
      simp only [List.head?_cons, Option.some.injEq] at h
      subst h
      rw [← ht]
      simp

theorem trimRight_trimRight (s : List Char) : trimRight (trimRight s) = trimRight s := by
  simp [trimRight, List.reverse_reverse, dropWhile_dropWhile]

theorem jsTrim_idem (s : List Char) : jsTrim (jsTrim s) = jsTrim s := by
  rw [jsTrim_eq_trimRight_dropWhile (jsTrim s)]
  have hhead : ∀ c, (jsTrim s).head? = some c → isSpaceJS c = false := by
    intro c hc
    rw [jsTrim_eq_trimRight_dropWhile] at hc
    have := trimRight_head _ _ hc
    exact head_dropWhile_false isSpaceJS s c this
  rw [dropWhile_eq_self_of_head isSpaceJS (jsTrim s) hhead]
  rw [jsTrim_eq_trimRight_dropWhile s]
  exact trimRight_trimRight _

/-! ### Window reconstruction -/

theorem reconGo_eq (para : List Char) :
    ∀ (l : List JudgmentChunk) (pe : Nat), WindowChain para pe l →
      reconGo para pe l = substringJS para pe para.length := by
  intro l
  induction l with
  | nil =>
      intro pe h
      have hpe : pe = para.length := h
      subst hpe
      simp [reconGo, substringJS]
  | cons c rest ih =>
      intro pe h
      obtain ⟨h1, h2, h3, h4⟩ := h
      simp only [reconGo, windowOf]
      rw [substringJS_drop para _ _ pe h1]
      rw [ih _ h4]
      exact substringJS_append para pe c.anchor.endChar para.length h2 h3

theorem reconstructWindows_eq (para : List Char) (l : List JudgmentChunk)
    (hchain : WindowChain para 0 l)
    (hhead : ∀ c0, l.head? = some c0 → c0.anchor.startChar = 0) :
    reconstructWindows para l = para := by
  cases l with
  | nil =>
      have h0 : (0 : Nat) = para.length := hchain
      have : para = [] := by
        cases para with
        | nil => rfl
        | cons a r => simp at h0
      simp [reconstructWindows, this]
  | cons c rest =>
      obtain ⟨h1, h2, h3, h4⟩ := hchain
      have hs := hhead c rfl
      simp only [reconstructWindows, windowOf]
      rw [reconGo_eq para rest c.anchor.endChar h4, hs]
      rw [substringJS_append para 0 c.anchor.endChar para.length (by omega) h3]
      exact substringJS_all para

/-! ### The per-paragraph chunker -/

theorem chunkOfParagraph_spec (para : List Char) (pg pn : Nat) (jid : List Char) (ctr : Nat) :
    WindowChain para 0 (chunkOfParagraph para pg pn jid ctr) ∧
    (∀ c0, (chunkOfParagraph para pg pn jid ctr).head? = some c0 → c0.anchor.startChar = 0) ∧
    (∀ c ∈ chunkOfParagraph para pg pn jid ctr,
      c.anchor.pageNumber = pg ∧ c.anchor.paragraphNumber = pn ∧
      c.metadata.pageNumber = pg ∧ c.metadata.paragraphNumber = pn ∧
      jsTrim c.text = jsTrim (windowOf para c)) ∧
    (∀ (i : Nat) (c : JudgmentChunk), (chunkOfParagraph para pg pn jid ctr)[i]? = some c →
      c.chunkId = mkChunkId jid pg pn (ctr + i)) ∧
    chunkOfParagraph para pg pn jid ctr ≠ [] := by
  by_cases hlen : para.length ≤ MAX_CHUNK_SIZE
  · have hrw : chunkOfParagraph para pg pn jid ctr =
        [{ chunkId := mkChunkId jid pg pn ctr
           text := para
           anchor := ⟨pg, pn, 0, para.length⟩
           metadata := ⟨pg, pn, countWords para, para.length⟩ }] := by
      simp [chunkOfParagraph, hlen]
    rw [hrw]
    refine ⟨⟨by simp, by simp, le_refl _, rfl⟩, ?_, ?_, ?_, by simp⟩
    · intro c0 hc0
      simp only [List.head?_cons, Option.some.injEq] at hc0
      subst hc0
      rfl
    · intro c hc
      simp only [List.mem_singleton] at hc
      subst hc
      refine ⟨rfl, rfl, rfl, rfl, ?_⟩
      simp [windowOf, substringJS]
    · intro i c hc
      match i with
      | 0 =>
          simp only [List.getElem?_cons_zero, Option.some.injEq] at hc
          subst hc
          rfl
      | j + 1 => simp at hc
  · push_neg at hlen
    have hpos : 0 < para.length := by
      simp only [MAX_CHUNK_SIZE] at hlen
      omega
    have hrw : chunkOfParagraph para pg pn jid ctr = splitLongParagraph para pg pn jid ctr := by
      simp [chunkOfParagraph]
      omega
    rw [hrw]
    unfold splitLongParagraph
    obtain ⟨hChain, hHead, hMem, hIds, hNe⟩ :=
      splitLongParaGo_spec para pg pn jid para.length ctr 0 hpos (by omega)
    refine ⟨hChain, fun c0 h => (hHead c0 h).1, ?_, hIds, hNe⟩
    intro c hc
    obtain ⟨ha, hb, hc2, hd, he⟩ := hMem c hc
    exact ⟨ha, hb, hc2, hd, by rw [he, jsTrim_idem]⟩

/-- C9: for every paragraph longer than `MAX_CHUNK_SIZE` (1000), the
window-splitting loop terminates: each iteration advances the window
start position by at least `MIN_CHUNK_SIZE` (200) characters, so a
paragraph of length L produces at most ceil(L / MIN_CHUNK_SIZE)
chunks. -/
theorem C9_window_split_bound (para : List Char) (pg pn : Nat) (jid : List Char) (ctr : Nat)
    (h : MAX_CHUNK_SIZE < para.length) :
    (∀ (i : Nat) (c c' : JudgmentChunk),
        (splitLongParagraph para pg pn jid ctr)[i]? = some c →
        (splitLongParagraph para pg pn jid ctr)[i + 1]? = some c' →
        c.anchor.startChar + MIN_CHUNK_SIZE ≤ c'.anchor.startChar) ∧
    (splitLongParagraph para pg pn jid ctr).length ≤
      (para.length + (MIN_CHUNK_SIZE - 1)) / MIN_CHUNK_SIZE := by
  constructor
  · intro i c c' hc hc'
    exact splitLongParaGo_advance para pg pn jid para.length ctr 0 i c c' hc hc'
  · have := splitLongParaGo_length_le para pg pn jid para.length ctr 0
    simpa [splitLongParagraph, MIN_CHUNK_SIZE] using this

/-! ### Page and document level invariants -/

theorem extractParagraphs_nonempty (t : List Char) :
    ∀ p ∈ extractParagraphs t, (jsTrim p).length ≠ 0 := by
  intro p hp
  simp only [extractParagraphs, List.mem_filter] at hp
  exact of_decide_eq_true hp.2

theorem pairwise_para_const (l : List JudgmentChunk) (k : Nat)
    (h : ∀ c ∈ l, c.anchor.paragraphNumber = k) :
    l.Pairwise (fun a b => a.anchor.paragraphNumber ≤ b.anchor.paragraphNumber) := by
  induction l with
  | nil => exact List.Pairwise.nil
  | cons a rest ih =>
      refine List.Pairwise.cons ?_ (ih ?_)
      · intro b hb
        rw [h a (by simp), h b (by simp [hb])]
      · intro c hc
        exact h c (by simp [hc])

theorem processParas_spec (pg : PageContent) (jid : List Char) :
    ∀ (paras : List (List Char)) (pc cc : Nat),
      (∀ p ∈ paras, (jsTrim p).length ≠ 0) →
      (processParas pg jid paras pc cc).2.1 = pc + paras.length ∧
      (processParas pg jid paras pc cc).2.2 = cc + (processParas pg jid paras pc cc).1.length ∧
      (∀ (i : Nat) (c : JudgmentChunk), (processParas pg jid paras pc cc).1[i]? = some c →
        c.chunkId = mkChunkId jid c.anchor.pageNumber c.anchor.paragraphNumber (cc + i)) ∧
      (∀ c ∈ (processParas pg jid paras pc cc).1,
        c.anchor.pageNumber = pg.pageNumber ∧
        pc + 1 ≤ c.anchor.paragraphNumber ∧
        c.anchor.paragraphNumber ≤ pc + paras.length ∧
        ∃ para, paras[c.anchor.paragraphNumber - pc - 1]? = some para) ∧
      (∀ (pn : Nat) (para : List Char), paras[pn - pc - 1]? = some para → pc < pn →
        ∃ cc2, (processParas pg jid paras pc cc).1.filter
            (fun c => c.anchor.paragraphNumber == pn) =
          chunkOfParagraph para pg.pageNumber pn jid cc2) ∧
      (processParas pg jid paras pc cc).1.Pairwise
        (fun a b => a.anchor.paragraphNumber ≤ b.anchor.paragraphNumber) := by
  intro paras
  induction paras with
  | nil =>
      intro pc cc _
      refine ⟨by simp [processParas], by simp [processParas], ?_, ?_, ?_, by simp [processParas]⟩
      · intro i c hc; simp [processParas] at hc
      · intro c hc; simp [processParas] at hc
      · intro pn para hpn; simp at hpn
  | cons para rest ih =>
      intro pc cc hne
      have hpara := hne para (by simp)
      have hrw : processParas pg jid (para :: rest) pc cc =
          (chunkOfParagraph para pg.pageNumber (pc + 1) jid cc ++
            (processParas pg jid rest (pc + 1)
              (cc + (chunkOfParagraph para pg.pageNumber (pc + 1) jid cc).length)).1,
           (processParas pg jid rest (pc + 1)
              (cc + (chunkOfParagraph para pg.pageNumber (pc + 1) jid cc).length)).2) := by
        simp [processParas, hpara]
      obtain ⟨cSpecChain, cSpecHead, cSpecMem, cSpecIds, cSpecNe⟩ :=
        chunkOfParagraph_spec para pg.pageNumber (pc + 1) jid cc
      set cs := chunkOfParagraph para pg.pageNumber (pc + 1) jid cc with hcs
      obtain ⟨ih1, ih2, ih3, ih4, ih5, ih6⟩ :=
        ih (pc + 1) (cc + cs.length) (fun p hp => hne p (by simp [hp]))
      set r2 := processParas pg jid rest (pc + 1) (cc + cs.length) with hr2
      refine ⟨?_, ?_, ?_, ?_, ?_, ?_⟩
      · rw [hrw]
        simp only [List.length_cons]
        rw [ih1]
        omega
      · rw [hrw]
        simp only [List.length_append]
        rw [ih2]
        omega
      · rw [hrw]
        intro i c hc
        by_cases hilt : i < cs.length
        · rw [List.getElem?_append_left hilt] at hc
          have hid := cSpecIds i c hc
          have hmem : c ∈ cs := List.getElem?_mem hc
          obtain ⟨hcpg, hcpn, _, _, _⟩ := cSpecMem c hmem
          rw [hid, hcpg, hcpn]
        · push_neg at hilt
          rw [List.getElem?_append_right hilt] at hc
          have := ih3 (i - cs.length) c hc
          rw [this]
          congr 1
          omega
      · rw [hrw]
        intro c hc
        rcases List.mem_append.mp hc with hc | hc
        · obtain ⟨hcpg, hcpn, _, _, _⟩ := cSpecMem c hc
          refine ⟨hcpg, by omega, by simp [List.length_cons]; omega, ?_⟩
          rw [hcpn]
          exact ⟨para, by simp⟩
        · obtain ⟨hcpg, hlo, hhi, hex⟩ := ih4 c hc
          refine ⟨hcpg, by omega, by simp [List.length_cons]; omega, ?_⟩
          obtain ⟨q, hq⟩ := hex
          refine ⟨q, ?_⟩
          have hidx : c.anchor.paragraphNumber - pc - 1 =
              (c.anchor.paragraphNumber - (pc + 1) - 1) + 1 := by omega
          rw [hidx]
          simpa using hq
      · rw [hrw]
        intro pn q hq hpcpn
        by_cases hpn1 : pn = pc + 1
        · subst hpn1
          have hq0 : para = q := by
            have : pc + 1 - pc - 1 = 0 := by omega
            rw [this] at hq
            simpa using hq
          subst hq0
          refine ⟨cc, ?_⟩
          rw [List.filter_append]
          have hfl : cs.filter (fun c => c.anchor.paragraphNumber == pc + 1) = cs := by
            apply List.filter_eq_self.mpr
            intro c hcmem
            obtain ⟨_, hcpn, _, _, _⟩ := cSpecMem c hcmem
            simp [hcpn]
          have hfr : r2.1.filter (fun c => c.anchor.paragraphNumber == pc + 1) = [] := by
            apply List.filter_eq_nil_iff.mpr
            intro c hcmem
            obtain ⟨_, hlo, _, _⟩ := ih4 c hcmem
            simp only [beq_iff_eq]
            omega
          rw [hfl, hfr, List.append_nil]
        · have hge : pc + 2 ≤ pn := by omega
          have hidx : pn - pc - 1 = (pn - (pc + 1) - 1) + 1 := by omega
          rw [hidx] at hq
          simp only [List.getElem?_cons_succ] at hq
          obtain ⟨cc2, hcc2⟩ := ih5 pn q hq (by omega)
          refine ⟨cc2, ?_⟩
          rw [List.filter_append]
          have hfl : cs.filter (fun c => c.anchor.paragraphNumber == pn) = [] := by
            apply List.filter_eq_nil_iff.mpr
            intro c hcmem
            obtain ⟨_, hcpn, _, _, _⟩ := cSpecMem c hcmem
            simp only [beq_iff_eq, hcpn]
            omega
          rw [hfl, hcc2, List.nil_append]
      · rw [hrw]
        rw [List.pairwise_append]
        refine ⟨?_, ih6, ?_⟩
        · apply pairwise_para_const cs (pc + 1)
          intro c hcmem
          exact (cSpecMem c hcmem).2.1
        · intro a ha b hb
          have h1 := (cSpecMem a ha).2.1
          have h2 := (ih4 b hb).2.1
          omega

theorem paraAssignment_cons (pg : PageContent) (rest : List PageContent) :
    paraAssignment (pg :: rest) =
      (extractParagraphs pg.text).map (fun para => (pg.pageNumber, para)) ++
        paraAssignment rest := by
  simp [paraAssignment]

theorem processPages_spec (jid : List Char) :
    ∀ (pages : List PageContent) (pc cc : Nat),
      (processPages jid pages pc cc).2.1 = pc + (paraAssignment pages).length ∧
      (processPages jid pages pc cc).2.2 = cc + (processPages jid pages pc cc).1.length ∧
      (∀ (i : Nat) (c : JudgmentChunk), (processPages jid pages pc cc).1[i]? = some c →
        c.chunkId = mkChunkId jid c.anchor.pageNumber c.anchor.paragraphNumber (cc + i)) ∧
      (∀ c ∈ (processPages jid pages pc cc).1,
        pc + 1 ≤ c.anchor.paragraphNumber ∧
        c.anchor.paragraphNumber ≤ pc + (paraAssignment pages).length ∧
        ∃ pg para, pg ∈ pages ∧ c.anchor.pageNumber = pg.pageNumber ∧
          para ∈ extractParagraphs pg.text ∧
          (paraAssignment pages)[c.anchor.paragraphNumber - pc - 1]? =
            some (pg.pageNumber, para)) ∧
      (∀ (pn pgN : Nat) (para : List Char),
        (paraAssignment pages)[pn - pc - 1]? = some (pgN, para) → pc < pn →
        ∃ cc2, (processPages jid pages pc cc).1.filter
            (fun c => c.anchor.paragraphNumber == pn) =
          chunkOfParagraph para pgN pn jid cc2) ∧
      (processPages jid pages pc cc).1.Pairwise
        (fun a b => a.anchor.paragraphNumber ≤ b.anchor.paragraphNumber) := by
  intro pages
  induction pages with
  | nil =>
      intro pc cc
      refine ⟨by simp [processPages, paraAssignment], by simp [processPages], ?_, ?_, ?_,
        by simp [processPages]⟩
      · intro i c hc; simp [processPages] at hc
      · intro c hc; simp [processPages] at hc
      · intro pn pgN para hpn; simp [paraAssignment] at hpn
  | cons pg rest ih =>
      intro pc cc
      obtain ⟨pp1, pp2, pp3, pp4, pp5, pp6⟩ :=
        processParas_spec pg jid (extractParagraphs pg.text) pc cc
          (extractParagraphs_nonempty pg.text)
      set r1 := processParas pg jid (extractParagraphs pg.text) pc cc with hr1
      obtain ⟨ih1, ih2, ih3, ih4, ih5, ih6⟩ := ih r1.2.1 r1.2.2
      set r2 := processPages jid rest r1.2.1 r1.2.2 with hr2def
      have hrw : processPages jid (pg :: rest) pc cc = (r1.1 ++ r2.1, r2.2) := by
        simp [processPages, ← hr1, ← hr2def]
      have hplen : (extractParagraphs pg.text).length =
          ((extractParagraphs pg.text).map (fun para => (pg.pageNumber, para))).length := by
        simp
      have hAlen : (paraAssignment (pg :: rest)).length =
          (extractParagraphs pg.text).length + (paraAssignment rest).length := by
        rw [paraAssignment_cons]
        simp
      refine ⟨?_, ?_, ?_, ?_, ?_, ?_⟩
      · rw [hrw]
        simp only
        rw [ih1, pp1, hAlen]
        omega
      · rw [hrw]
        simp only [List.length_append]
        rw [ih2, pp2]
        omega
      · rw [hrw]
        intro i c hc
        by_cases hilt : i < r1.1.length
        · rw [List.getElem?_append_left hilt] at hc
          exact pp3 i c hc
        · push_neg at hilt
          rw [List.getElem?_append_right hilt] at hc
          have := ih3 (i - r1.1.length) c hc
          rw [this, pp2]
          congr 1
          omega
      · rw [hrw]
        intro c hc
        rcases List.mem_append.mp hc with hc | hc
        · obtain ⟨hcpg, hlo, hhi, para, hpara⟩ := pp4 c hc
          have hidx : c.anchor.paragraphNumber - pc - 1 < (extractParagraphs pg.text).length :=
            List.getElem?_eq_some.mp hpara |>.1
          refine ⟨hlo, by rw [hAlen]; omega, pg, para, by simp, hcpg, List.getElem?_mem hpara, ?_⟩
          rw [paraAssignment_cons]
          rw [List.getElem?_append_left (by simpa using hidx)]
          rw [List.getElem?_map, hpara]
          rfl
        · obtain ⟨hlo, hhi, pg2, para, hpg2, hcpg, hparaMem, hpara⟩ := ih4 c hc
          rw [pp1] at hlo hhi hpara
          refine ⟨by omega, by rw [hAlen]; omega, pg2, para, by simp [hpg2], hcpg, hparaMem, ?_⟩
          rw [paraAssignment_cons]
          rw [List.getElem?_append_right (by simp; omega)]
          have hidx2 : c.anchor.paragraphNumber - pc - 1 -
              ((extractParagraphs pg.text).map (fun para => (pg.pageNumber, para))).length =
              c.anchor.paragraphNumber - (pc + (extractParagraphs pg.text).length) - 1 := by
            simp
            omega
          rw [hidx2]
          exact hpara
      · rw [hrw]
        intro pn pgN para hpn hpcpn
        rw [paraAssignment_cons] at hpn
        by_cases hcase : pn - pc - 1 < (extractParagraphs pg.text).length
        · rw [List.getElem?_append_left (by simpa using hcase)] at hpn
          rw [List.getElem?_map] at hpn
          cases hq : (extractParagraphs pg.text)[pn - pc - 1]? with
          | none => rw [hq] at hpn; simp at hpn
          | some q =>
              rw [hq] at hpn
              simp only [Option.map_some', Option.some.injEq, Prod.mk.injEq] at hpn
              obtain ⟨hpgN, hqpara⟩ := hpn
              subst hpgN
              subst hqpara
              obtain ⟨cc2, hcc2⟩ := pp5 pn q hq hpcpn
              refine ⟨cc2, ?_⟩
              rw [List.filter_append, hcc2]
              have hfr : r2.1.filter (fun c => c.anchor.paragraphNumber == pn) = [] := by
                apply List.filter_eq_nil_iff.mpr
                intro c hcmem
                have := (ih4 c hcmem).1
                rw [pp1] at this
                simp only [beq_iff_eq]
                omega
              rw [hfr, List.append_nil]
        · push_neg at hcase
          rw [List.getElem?_append_right (by simp; omega)] at hpn
          have hidx2 : pn - pc - 1 -
              ((extractParagraphs pg.text).map (fun para => (pg.pageNumber, para))).length =
              pn - (pc + (extractParagraphs pg.text).length) - 1 := by
            simp
            omega
          rw [hidx2] at hpn
          rw [← pp1] at hpn
          have hpn2 : r1.2.1 < pn := by rw [pp1]; omega
          obtain ⟨cc2, hcc2⟩ := ih5 pn pgN para hpn hpn2
          refine ⟨cc2, ?_⟩
          rw [List.filter_append, hcc2]
          have hfl : r1.1.filter (fun c => c.anchor.paragraphNumber == pn) = [] := by
            apply List.filter_eq_nil_iff.mpr
            intro c hcmem
            have := (pp4 c hcmem).2.2.1
            simp only [beq_iff_eq]
            omega
          rw [hfl, List.nil_append]
      · rw [hrw]
        rw [List.pairwise_append]
        refine ⟨pp6, ih6, ?_⟩
        intro a ha b hb
        have h1 := (pp4 a ha).2.2.1
        have h2 := (ih4 b hb).1
        rw [pp1] at h2
        omega

/-! ### Decimal rendering of the running chunk index -/

theorem natToCharsGo_acc :
    ∀ (fuel n : Nat) (acc : List Char),
      natToCharsGo fuel n acc = natToCharsGo fuel n [] ++ acc := by
  intro fuel
  induction fuel with
  | zero => intro n acc; simp [natToCharsGo]
  | succ fuel ih =>
      intro n acc
      by_cases h : n < 10
      · simp [natToCharsGo, h]
      · simp only [natToCharsGo, h, if_neg, Bool.not_eq_true]
        rw [ih (n / 10) (digitChar (n % 10) :: acc), ih (n / 10) [ digitChar (n % 10) ]]
        simp

theorem natToCharsGo_fuel :
    ∀ (n f1 f2 : Nat), n < f1 → n < f2 →
      natToCharsGo f1 n [] = natToCharsGo f2 n [] := by
  intro n
  induction n using Nat.strong_induction_on with
  | _ n ih =>
      intro f1 f2 h1 h2
      match f1, f2 with
      | f1 + 1, f2 + 1 =>
          by_cases h : n < 10
          · simp [natToCharsGo, h]
          · simp only [natToCharsGo, h, if_neg, Bool.not_eq_true]
            rw [natToCharsGo_acc f1, natToCharsGo_acc f2]
            have hdiv : n / 10 < n := Nat.div_lt_self (by omega) (by omega)
            rw [ih (n / 10) hdiv f1 f2 (by omega) (by omega)]

theorem natToChars_eq (n : Nat) :
    natToChars n = if n < 10 then [ digitChar n ]
      else natToChars (n / 10) ++ [ digitChar (n % 10) ] := by
  by_cases h : n < 10
  · simp [natToChars, natToCharsGo, h]
  · simp only [h, if_neg, Bool.not_eq_true]
    unfold natToChars
    have hdiv : n / 10 < n := Nat.div_lt_self (by omega) (by omega)
    conv =>
      lhs
      rw [natToCharsGo]
    simp only [h, if_neg, Bool.not_eq_true]
    rw [natToCharsGo_acc n, natToCharsGo_fuel (n / 10) n (n / 10 + 1) (by omega) (by omega)]

theorem digitChar_toNat (d : Nat) (h : d < 10) : (digitChar d).toNat = 48 + d := by
  interval_cases d <;> decide

theorem digitChar_ne_dash (d : Nat) (h : d < 10) : digitChar d ≠ '-' := by
  interval_cases d <;> decide

theorem natToChars_digits (n : Nat) :
    ∀ c ∈ natToChars n, ∃ d, d < 10 ∧ c = digitChar d := by
  induction n using Nat.strong_induction_on with
  | _ n ih =>
      intro c hc
      rw [natToChars_eq] at hc
      by_cases h : n < 10
      · rw [if_pos h] at hc
        simp only [List.mem_singleton] at hc
        exact ⟨n, h, hc⟩
      · rw [if_neg h] at hc
        rcases List.mem_append.mp hc with hc | hc
        · have hdiv : n / 10 < n := Nat.div_lt_self (by omega) (by omega)
          exact ih (n / 10) hdiv c hc
        · simp only [List.mem_singleton] at hc
          exact ⟨n % 10, by omega, hc⟩

theorem natToChars_ne_dash (n : Nat) : ∀ c ∈ natToChars n, c ≠ '-' := by
  intro c hc
  obtain ⟨d, hd, rfl⟩ := natToChars_digits n c hc
  exact digitChar_ne_dash d hd

theorem parseNatChars_append_digit (A : List Char) (c : Char) :
    parseNatChars (A ++ [ c ]) = parseNatChars A * 10 + (c.toNat - 48) := by
  simp [parseNatChars, List.foldl_append]

theorem parseNatChars_natToChars (n : Nat) : parseNatChars (natToChars n) = n := by
  induction n using Nat.strong_induction_on with
  | _ n ih =>
      rw [natToChars_eq]
      by_cases h : n < 10
      · rw [if_pos h]
        simp [parseNatChars, digitChar_toNat n h]
      · rw [if_neg h]
        rw [parseNatChars_append_digit]
        have hdiv : n / 10 < n := Nat.div_lt_self (by omega) (by omega)
        rw [ih (n / 10) hdiv, digitChar_toNat (n % 10) (by omega)]
        omega

theorem natToChars_injective (a b : Nat) (h : natToChars a = natToChars b) : a = b := by
  have ha := parseNatChars_natToChars a
  have hb := parseNatChars_natToChars b
  rw [h] at ha
  omega

theorem takeWhile_append_stop (p : Char → Bool) (x : Char) (hx : p x = false) :
    ∀ (l1 l2 : List Char), (∀ c ∈ l1, p c = true) →
      (l1 ++ x :: l2).takeWhile p = l1 := by
  intro l1
  induction l1 with
  | nil => intro l2 _; simp [List.takeWhile_cons, hx]
  | cons a rest ih =>
      intro l2 hall
      have ha := hall a (by simp)
      simp only [List.cons_append, List.takeWhile_cons, ha, if_pos]
      rw [ih l2 (fun c hc => hall c (by simp [hc]))]

theorem lastDashComp_append (A d : List Char) (hd : ∀ c ∈ d, c ≠ '-') :
    lastDashComp (A ++ '-' :: d) = d := by
  unfold lastDashComp
  rw [List.reverse_append]
  simp only [List.reverse_cons]
  rw [List.append_assoc]
  simp only [List.singleton_append]
  rw [takeWhile_append_stop _ '-' (by simp) d.reverse A.reverse
    (fun c hc => by
      have : c ∈ d := List.mem_reverse.mp hc
      simpa using hd c this)]
  exact List.reverse_reverse d

theorem lastDashComp_mkChunkId (jid : List Char) (p q i : Nat) :
    lastDashComp (mkChunkId jid p q i) = natToChars i := by
  unfold mkChunkId
  have h1 : jid ++ '-' :: natToChars p ++ '-' :: natToChars q ++ '-' :: natToChars i =
      (jid ++ '-' :: natToChars p ++ '-' :: natToChars q) ++ '-' :: natToChars i := by
    simp [List.append_assoc]
  rw [h1, lastDashComp_append _ _ (natToChars_ne_dash i)]

theorem chunkPages_chunks (pages : List PageContent) (jid : List Char) :
    (chunkPages pages jid).chunks = (processPages jid pages 0 0).1 := rfl

theorem chunkPages_totalParagraphs (pages : List PageContent) (jid : List Char) :
    (chunkPages pages jid).statistics.totalParagraphs = (processPages jid pages 0 0).2.1 := rfl

/-- C6: chunking is deterministic: running `chunkPages` twice on
identical input yields identical results (chunk ids and statistics
included), and each chunk id is derived only from the judgment id, the
chunk's anchored page number, its anchored paragraph number, and its
running index in the emitted sequence. -/
theorem C6_chunking_deterministic (pages pages2 : List PageContent) (jid jid2 : List Char) :
    (pages = pages2 → jid = jid2 → chunkPages pages jid = chunkPages pages2 jid2) ∧
    (∀ (i : Nat) (c : JudgmentChunk), (chunkPages pages jid).chunks[i]? = some c →
      c.chunkId = mkChunkId jid c.anchor.pageNumber c.anchor.paragraphNumber i) := by
  constructor
  · rintro rfl rfl
    rfl
  · intro i c hc
    rw [chunkPages_chunks] at hc
    have := (processPages_spec jid pages 0 0).2.2.1 i c hc
    simpa using this

/-- Witness for C6 at a concrete two-page document. -/
theorem C6_chunking_deterministic_witness :
    (demoPages = demoPages → demoJid = demoJid →
      chunkPages demoPages demoJid = chunkPages demoPages demoJid) ∧
    (∀ (i : Nat) (c : JudgmentChunk), (chunkPages demoPages demoJid).chunks[i]? = some c →
      c.chunkId = mkChunkId demoJid c.anchor.pageNumber c.anchor.paragraphNumber i) :=
  C6_chunking_deterministic demoPages demoPages demoJid demoJid

/-- C10: the chunk ids emitted by a single `chunkPages` run are
pairwise distinct: the trailing dash-separated component of the id of
the chunk at position i is the decimal rendering of i, so it strictly
increases across consecutively emitted chunks. -/
theorem C10_chunk_ids_distinct (pages : List PageContent) (jid : List Char) :
    (∀ (i : Nat) (c : JudgmentChunk), (chunkPages pages jid).chunks[i]? = some c →
      lastDashComp c.chunkId = natToChars i) ∧
    (∀ (i : Nat) (c c' : JudgmentChunk),
      (chunkPages pages jid).chunks[i]? = some c →
      (chunkPages pages jid).chunks[i + 1]? = some c' →
      parseNatChars (lastDashComp c.chunkId) < parseNatChars (lastDashComp c'.chunkId)) ∧
    (∀ (i j : Nat) (c c' : JudgmentChunk),
      (chunkPages pages jid).chunks[i]? = some c →
      (chunkPages pages jid).chunks[j]? = some c' →
      i ≠ j → c.chunkId ≠ c'.chunkId) := by
  have hid : ∀ (i : Nat) (c : JudgmentChunk), (chunkPages pages jid).chunks[i]? = some c →
      lastDashComp c.chunkId = natToChars i := by
    intro i c hc
    have := (C6_chunking_deterministic pages pages jid jid).2 i c hc
    rw [this, lastDashComp_mkChunkId]
  refine ⟨hid, ?_, ?_⟩
  · intro i c c' hc hc'
    rw [hid i c hc, hid (i + 1) c' hc']
    rw [parseNatChars_natToChars, parseNatChars_natToChars]
    omega
  · intro i j c c' hc hc' hij heq
    have h1 := hid i c hc
    have h2 := hid j c' hc'
    rw [heq] at h1
    rw [h1] at h2
    exact hij (natToChars_injective i j h2)

/-- Witness for C10 at a concrete two-page document. -/
theorem C10_chunk_ids_distinct_witness :
    (∀ (i : Nat) (c : JudgmentChunk), (chunkPages demoPages demoJid).chunks[i]? = some c →
      lastDashComp c.chunkId = natToChars i) ∧
    (∀ (i : Nat) (c c' : JudgmentChunk),
      (chunkPages demoPages demoJid).chunks[i]? = some c →
      (chunkPages demoPages demoJid).chunks[i + 1]? = some c' →
      parseNatChars (lastDashComp c.chunkId) < parseNatChars (lastDashComp c'.chunkId)) ∧
    (∀ (i j : Nat) (c c' : JudgmentChunk),
      (chunkPages demoPages demoJid).chunks[i]? = some c →
      (chunkPages demoPages demoJid).chunks[j]? = some c' →
      i ≠ j → c.chunkId ≠ c'.chunkId) :=
  C10_chunk_ids_distinct demoPages demoJid

/-- C8: every chunk anchor references an existing (pageNumber,
paragraphNumber) pair: the paragraph number indexes (1-based) the
document-order list of non-empty paragraphs, the entry carries the
chunk's page number, that page is in the input, and the paragraph is a
non-empty paragraph extracted from it; paragraph numbers are
non-decreasing in chunk emission order; and the paragraph counter
counts exactly the non-empty paragraphs of the whole document. -/
theorem C8_anchor_validity (pages : List PageContent) (jid : List Char) :
    (∀ c ∈ (chunkPages pages jid).chunks,
      1 ≤ c.anchor.paragraphNumber ∧
      c.anchor.paragraphNumber ≤ (paraAssignment pages).length ∧
      ∃ pg para, pg ∈ pages ∧ c.anchor.pageNumber = pg.pageNumber ∧
        para ∈ extractParagraphs pg.text ∧ (jsTrim para).length ≠ 0 ∧
        (paraAssignment pages)[c.anchor.paragraphNumber - 1]? =
          some (pg.pageNumber, para)) ∧
    List.Chain' (fun a b => a ≤ b)
      ((chunkPages pages jid).chunks.map (fun c => c.anchor.paragraphNumber)) ∧
    (chunkPages pages jid).statistics.totalParagraphs = (paraAssignment pages).length := by
  obtain ⟨pp1, _, _, pp4, _, pp6⟩ := processPages_spec jid pages 0 0
  refine ⟨?_, ?_, ?_⟩
  · intro c hc
    rw [chunkPages_chunks] at hc
    obtain ⟨hlo, hhi, pg, para, hpg, hcpg, hparaMem, hpara⟩ := pp4 c hc
    refine ⟨by omega, by omega, pg, para, hpg, hcpg, hparaMem,
      extractParagraphs_nonempty pg.text para hparaMem, ?_⟩
    simpa using hpara
  · rw [chunkPages_chunks]
    apply List.Pairwise.chain'
    rw [List.pairwise_map]
    exact pp6
  · rw [chunkPages_totalParagraphs, pp1]
    omega

/-- Witness for C8 at a concrete two-page document. -/
theorem C8_anchor_validity_witness :
    (∀ c ∈ (chunkPages demoPages demoJid).chunks,
      1 ≤ c.anchor.paragraphNumber ∧
      c.anchor.paragraphNumber ≤ (paraAssignment demoPages).length ∧
      ∃ pg para, pg ∈ demoPages ∧ c.anchor.pageNumber = pg.pageNumber ∧
        para ∈ extractParagraphs pg.text ∧ (jsTrim para).length ≠ 0 ∧
        (paraAssignment demoPages)[c.anchor.paragraphNumber - 1]? =
          some (pg.pageNumber, para)) ∧
    List.Chain' (fun a b => a ≤ b)
      ((chunkPages demoPages demoJid).chunks.map (fun c => c.anchor.paragraphNumber)) ∧
    (chunkPages demoPages demoJid).statistics.totalParagraphs =
      (paraAssignment demoPages).length :=
  C8_anchor_validity demoPages demoJid

/-- C1 counterexample: for the one-page document whose single
paragraph is a space followed by 1000 characters, concatenating the
paragraph's chunks with overlaps removed does not reconstruct the
paragraph: the window trim drops the leading space, which lies in no
overlap region. -/
theorem C1_counterexample :
    reconstructChunks ((chunkPages demoPagesC1 demoJid).chunks.filter
      (fun c => c.anchor.paragraphNumber == 1)) ≠ demoParaC1 := by
  decide

/-- C1 amended: for every page list, the chunks of each non-empty
paragraph are its windows in order: removing the overlapping regions
between consecutive chunks from the untrimmed anchor-delimited windows
reconstructs the paragraph exactly; each chunk's text equals its
window up to whitespace trimming; and for a paragraph at or under
`MAX_CHUNK_SIZE` the single chunk holds the paragraph verbatim, so the
original claim holds there. -/
theorem C1_paragraph_reconstruction (pages : List PageContent) (jid : List Char)
    (pn pgN : Nat) (para : List Char)
    (h1 : 1 ≤ pn) (h2 : (paraAssignment pages)[pn - 1]? = some (pgN, para)) :
    ∃ cc2,
      (chunkPages pages jid).chunks.filter (fun c => c.anchor.paragraphNumber == pn) =
        chunkOfParagraph para pgN pn jid cc2 ∧
      reconstructWindows para (chunkOfParagraph para pgN pn jid cc2) = para ∧
      (∀ c ∈ chunkOfParagraph para pgN pn jid cc2,
        jsTrim c.text = jsTrim (windowOf para c)) ∧
      (para.length ≤ MAX_CHUNK_SIZE →
        ∃ c, chunkOfParagraph para pgN pn jid cc2 = [c] ∧ c.text = para ∧
          reconstructChunks (chunkOfParagraph para pgN pn jid cc2) = para) := by
  obtain ⟨_, _, _, _, pp5, _⟩ := processPages_spec jid pages 0 0
  have h2' : (paraAssignment pages)[pn - 0 - 1]? = some (pgN, para) := by simpa using h2
  obtain ⟨cc2, hcc2⟩ := pp5 pn pgN para h2' (by omega)
  rw [chunkPages_chunks]
  refine ⟨cc2, hcc2, ?_, ?_, ?_⟩
  · obtain ⟨hChain, hHead, _, _, _⟩ := chunkOfParagraph_spec para pgN pn jid cc2
    exact reconstructWindows_eq para _ hChain hHead
  · exact fun c hc => ((chunkOfParagraph_spec para pgN pn jid cc2).2.2.1 c hc).2.2.2.2
  · intro hlen
    have hrw : chunkOfParagraph para pgN pn jid cc2 =
        [{ chunkId := mkChunkId jid pgN pn cc2
           text := para
           anchor := ⟨pgN, pn, 0, para.length⟩
           metadata := ⟨pgN, pn, countWords para, para.length⟩ }] := by
      simp [chunkOfParagraph, hlen]
    refine ⟨_, hrw, rfl, ?_⟩
    rw [hrw]
    simp [reconstructChunks, reconTextGo]

/-- Witness for the amended C1 at the concrete one-page document. -/
theorem C1_paragraph_reconstruction_witness :
    1 ≤ 1 ∧ (paraAssignment demoPagesC1)[1 - 1]? = some (1, demoParaC1) ∧
    (∃ cc2,
      (chunkPages demoPagesC1 demoJid).chunks.filter
          (fun c => c.anchor.paragraphNumber == 1) =
        chunkOfParagraph demoParaC1 1 1 demoJid cc2 ∧
      reconstructWindows demoParaC1 (chunkOfParagraph demoParaC1 1 1 demoJid cc2) =
        demoParaC1 ∧
      (∀ c ∈ chunkOfParagraph demoParaC1 1 1 demoJid cc2,
        jsTrim c.text = jsTrim (windowOf demoParaC1 c)) ∧
      (demoParaC1.length ≤ MAX_CHUNK_SIZE →
        ∃ c, chunkOfParagraph demoParaC1 1 1 demoJid cc2 = [c] ∧ c.text = demoParaC1 ∧
          reconstructChunks (chunkOfParagraph demoParaC1 1 1 demoJid cc2) = demoParaC1)) :=
  ⟨by omega, by decide,
   C1_paragraph_reconstruction demoPagesC1 demoJid 1 1 demoParaC1 (by omega) (by decide)⟩

/-- Witness for C9 at a concrete 1001-character paragraph. -/
theorem C9_window_split_bound_witness :
    MAX_CHUNK_SIZE < demoParaLong.length ∧
    ((∀ (i : Nat) (c c' : JudgmentChunk),
        (splitLongParagraph demoParaLong 1 1 demoJid 0)[i]? = some c →
        (splitLongParagraph demoParaLong 1 1 demoJid 0)[i + 1]? = some c' →
        c.anchor.startChar + MIN_CHUNK_SIZE ≤ c'.anchor.startChar) ∧
      (splitLongParagraph demoParaLong 1 1 demoJid 0).length ≤
        (demoParaLong.length + (MIN_CHUNK_SIZE - 1)) / MIN_CHUNK_SIZE) :=
  ⟨by simp [MAX_CHUNK_SIZE, demoParaLong],
   C9_window_split_bound demoParaLong 1 1 demoJid 0 (by simp [MAX_CHUNK_SIZE, demoParaLong])⟩

/-! ### Extraction method selection -/

/-- C5 counterexample: a digital result whose total extracted length
is exactly `MIN_TEXT_LENGTH × totalPages` (50 characters on one page)
is at the claimed threshold, yet the extractor selects the OCR path,
not the digital result the claim states. -/
theorem C5_counterexample :
    totalTextLen demoDigitalAt = MIN_TEXT_LENGTH * demoDigitalAt.totalPages ∧
    (extractFromBuffer demoDigitalAt demoOcr).extractionMethod = ExtractionMethod.ocr ∧
    ExtractionMethod.ocr ≠ ExtractionMethod.digital := by
  refine ⟨by decide, by decide, by decide⟩

/-- C5 amended: the extractor accepts the digital result exactly when
the total extracted character count strictly exceeds
`MIN_TEXT_LENGTH × totalPages`; at or below that threshold it falls
back to OCR, and the resulting extraction method is digital or ocr
accordingly. -/
theorem C5_threshold_selection (d o : StrategyResult) :
    (MIN_TEXT_LENGTH * d.totalPages < totalTextLen d →
      (extractFromBuffer d o).extractionMethod = ExtractionMethod.digital ∧
      (extractFromBuffer d o).pages = d.pages) ∧
    (totalTextLen d ≤ MIN_TEXT_LENGTH * d.totalPages →
      (extractFromBuffer d o).extractionMethod = ExtractionMethod.ocr ∧
      (extractFromBuffer d o).pages = o.pages) := by
  constructor
  · intro h
    rw [extractFromBuffer, if_pos h]
    exact ⟨rfl, rfl⟩
  · intro h
    rw [extractFromBuffer, if_neg (by omega)]
    exact ⟨rfl, rfl⟩

/-- Witness for C5: one digital result above the threshold yields the
digital method, one at the threshold yields OCR. -/
theorem C5_threshold_selection_witness :
    MIN_TEXT_LENGTH * demoDigitalAbove.totalPages < totalTextLen demoDigitalAbove ∧
    ((extractFromBuffer demoDigitalAbove demoOcr).extractionMethod =
        ExtractionMethod.digital ∧
      (extractFromBuffer demoDigitalAbove demoOcr).pages = demoDigitalAbove.pages) ∧
    totalTextLen demoDigitalAt ≤ MIN_TEXT_LENGTH * demoDigitalAt.totalPages ∧
    ((extractFromBuffer demoDigitalAt demoOcr).extractionMethod = ExtractionMethod.ocr ∧
      (extractFromBuffer demoDigitalAt demoOcr).pages = demoOcr.pages) :=
  ⟨by decide,
   (C5_threshold_selection demoDigitalAbove demoOcr).1 (by decide),
   by decide,
   (C5_threshold_selection demoDigitalAt demoOcr).2 (by decide)⟩

/-! ### Anchor extraction -/

mutual
theorem extractFromValue_eq : ∀ (v : Json) (path : List Char),
    extractFromValue v path = (anchoredNodes v).filterMap
      (fun pa => if jsTruthy pa.2 then some (renderPathFrom path pa.1, pa.2) else none)
  | .null, path => by simp [extractFromValue, anchoredNodes]
  | .bool b, path => by simp [extractFromValue, anchoredNodes]
  | .num n, path => by simp [extractFromValue, anchoredNodes]
  | .str s, path => by simp [extractFromValue, anchoredNodes]
  | .obj fields, path => by
      simp only [extractFromValue, anchoredNodes, List.filterMap_append]
      congr 1
      · cases h : fields.lookup anchorKey with
        | none => simp
        | some a =>
            by_cases ht : jsTruthy a = true
            · simp [ht, renderPathFrom]
            · simp [ht]
      · exact extractFromObj_eq fields path
  | .arr items, path => by
      simp only [extractFromValue, anchoredNodes]
      exact extractFromArr_eq items 0 path
theorem extractFromObj_eq : ∀ (o : JsonObj) (path : List Char),
    extractFromObj o path = (anchoredNodesObj o).filterMap
      (fun pa => if jsTruthy pa.2 then some (renderPathFrom path pa.1, pa.2) else none)
  | .nil, path => by simp [extractFromObj, anchoredNodesObj]
  | .cons k v tl, path => by
      simp only [extractFromObj, anchoredNodesObj, List.filterMap_append, List.filterMap_map]
      congr 1
      · rw [extractFromValue_eq v (childPath path k)]
        congr 1
      · exact extractFromObj_eq tl path
theorem extractFromArr_eq : ∀ (ar : JsonArr) (i : Nat) (path : List Char),
    extractFromArr ar i path = (anchoredNodesArr ar i).filterMap
      (fun pa => if jsTruthy pa.2 then some (renderPathFrom path pa.1, pa.2) else none)
  | .nil, i, path => by simp [extractFromArr, anchoredNodesArr]
  | .cons x tl, i, path => by
      simp only [extractFromArr, anchoredNodesArr, List.filterMap_append, List.filterMap_map]
      congr 1
      · rw [extractFromValue_eq x (indexPath path i)]
        congr 1
      · exact extractFromArr_eq tl (i + 1) path
end

theorem consPath_injective (e : PathElem) :
    Function.Injective (fun p : List PathElem => e :: p) := by
  intro a b h
  simpa using h

mutual
theorem anchoredNodes_nodup : ∀ v : Json, wfJson v = true →
    ((anchoredNodes v).map Prod.fst).Nodup
  | .null, _ => by simp [anchoredNodes]
  | .bool b, _ => by simp [anchoredNodes]
  | .num n, _ => by simp [anchoredNodes]
  | .str s, _ => by simp [anchoredNodes]
  | .obj fields, h => by
      have h2 : nodupKeysB fields.keys = true ∧ wfObj fields = true := by
        simpa [wfJson, Bool.and_eq_true] using h
      obtain ⟨hnd, hshape⟩ := anchoredNodesObj_nodup fields h2.2 h2.1
      simp only [anchoredNodes, List.map_append]
      rw [List.nodup_append]
      refine ⟨?_, hnd, ?_⟩
      · cases hl : fields.lookup anchorKey with
        | none => simp
        | some a => simp
      · intro p hp hp2
        cases hl : fields.lookup anchorKey with
        | none => rw [hl] at hp; simp at hp
        | some a =>
            rw [hl] at hp
            simp only [List.map_cons, List.map_nil, List.mem_singleton] at hp
            obtain ⟨k, p', hpeq, _⟩ := hshape p hp2
            rw [hp] at hpeq
            exact absurd hpeq (by simp)
  | .arr items, h => by
      have h2 : wfArr items = true := by simpa [wfJson] using h
      simp only [anchoredNodes]
      exact (anchoredNodesArr_nodup items 0 h2).1
theorem anchoredNodesObj_nodup : ∀ o : JsonObj, wfObj o = true → nodupKeysB o.keys = true →
    ((anchoredNodesObj o).map Prod.fst).Nodup ∧
    (∀ p ∈ (anchoredNodesObj o).map Prod.fst,
      ∃ k p', p = PathElem.field k :: p' ∧ k ∈ o.keys)
  | .nil, _, _ => by simp [anchoredNodesObj]
  | .cons k v tl, hwf, hkeys => by
      have hwf2 : wfJson v = true ∧ wfObj tl = true := by
        simpa [wfObj, Bool.and_eq_true] using hwf
      have hkeys2 : (tl.keys.contains k) = false ∧ nodupKeysB tl.keys = true := by
        simpa [nodupKeysB, JsonObj.keys, Bool.and_eq_true] using hkeys
      have hkmem : k ∉ tl.keys := by
        intro hmem
        have hc : tl.keys.contains k = true := List.elem_eq_true_of_mem hmem
        rw [hkeys2.1] at hc
        exact absurd hc (by simp)
      obtain ⟨hnd2, hshape2⟩ := anchoredNodesObj_nodup tl hwf2.2 hkeys2.2
      have hnd1 := anchoredNodes_nodup v hwf2.1
      constructor
      · simp only [anchoredNodesObj, List.map_append, List.map_map]
        rw [List.nodup_append]
        refine ⟨?_, hnd2, ?_⟩
        · have heq : (Prod.fst ∘ fun pa : List PathElem × Json =>
              (PathElem.field k :: pa.1, pa.2)) =
              (fun p : List PathElem => PathElem.field k :: p) ∘ Prod.fst := rfl
          rw [heq, ← List.map_map]
          exact hnd1.map (consPath_injective (PathElem.field k))
        · intro p hp1 hp2
          simp only [List.mem_map, Function.comp] at hp1
          obtain ⟨pa, _, hpeq⟩ := hp1
          obtain ⟨k2, p2, hpeq2, hk2⟩ := hshape2 p hp2
          rw [← hpeq] at hpeq2
          have hkk : k = k2 := by
            have := List.head_eq_of_cons_eq hpeq2
            simpa using this
          rw [hkk] at hkmem
          exact hkmem hk2
      · intro p hp
        simp only [anchoredNodesObj, List.map_append, List.mem_append] at hp
        rcases hp with hp | hp
        · simp only [List.map_map, List.mem_map, Function.comp] at hp
          obtain ⟨pa, _, hpeq⟩ := hp
          exact ⟨k, pa.1, hpeq.symm, by simp [JsonObj.keys]⟩
        · obtain ⟨k2, p2, hpeq2, hk2⟩ := hshape2 p hp
          exact ⟨k2, p2, hpeq2, by simp [JsonObj.keys, hk2]⟩
theorem anchoredNodesArr_nodup : ∀ (ar : JsonArr) (i : Nat), wfArr ar = true →
    ((anchoredNodesArr ar i).map Prod.fst).Nodup ∧
    (∀ p ∈ (anchoredNodesArr ar i).map Prod.fst,
      ∃ j p', p = PathElem.index j :: p' ∧ i ≤ j)
  | .nil, i, _ => by simp [anchoredNodesArr]
  | .cons x tl, i, hwf => by
      have hwf2 : wfJson x = true ∧ wfArr tl = true := by
        simpa [wfArr, Bool.and_eq_true] using hwf
      obtain ⟨hnd2, hshape2⟩ := anchoredNodesArr_nodup tl (i + 1) hwf2.2
      have hnd1 := anchoredNodes_nodup x hwf2.1
      constructor
      · simp only [anchoredNodesArr, List.map_append, List.map_map]
        rw [List.nodup_append]
        refine ⟨?_, hnd2, ?_⟩
        · have heq : (Prod.fst ∘ fun pa : List PathElem × Json =>
              (PathElem.index i :: pa.1, pa.2)) =
              (fun p : List PathElem => PathElem.index i :: p) ∘ Prod.fst := rfl
          rw [heq, ← List.map_map]
          exact hnd1.map (consPath_injective (PathElem.index i))
        · intro p hp1 hp2
          simp only [List.mem_map, Function.comp] at hp1
          obtain ⟨pa, _, hpeq⟩ := hp1
          obtain ⟨j2, p2, hpeq2, hj2⟩ := hshape2 p hp2
          rw [← hpeq] at hpeq2
          have hkk : PathElem.index i = PathElem.index j2 :=
            List.head_eq_of_cons_eq hpeq2
          have : i = j2 := by
            cases hkk
            rfl
          omega
      · intro p hp
        simp only [anchoredNodesArr, List.map_append, List.mem_append] at hp
        rcases hp with hp | hp
        · simp only [List.map_map, List.mem_map, Function.comp] at hp
          obtain ⟨pa, _, hpeq⟩ := hp
          exact ⟨i, pa.1, hpeq.symm, by omega⟩
        · obtain ⟨j2, p2, hpeq2, hj2⟩ := hshape2 p hp
          exact ⟨j2, p2, hpeq2, by omega⟩
end

/-- C7 counterexample: a parsed result with a nested sub-object whose
`anchor` field holds null: the sub-object carries an anchor field,
yet the extracted anchor list is empty, because the traversal skips
falsy anchor values. -/
theorem C7_counterexample :
    anchoredNodes demoAnchorNull = [([ PathElem.field [ 'a' ] ], Json.null)] ∧
    extractAnchors demoAnchorNull = [] := by
  refine ⟨by decide, by decide⟩

/-- C7 amended: the extracted anchor list is exactly the anchored
sub-objects with a truthy anchor value, in traversal order, each
paired with its rendered access path; for realizable parsed results
(no duplicate object keys) the structured paths are pairwise distinct,
so each such sub-object appears exactly once.  Sub-objects whose
anchor value is falsy (null, false, 0 or the empty string) are
skipped. -/
theorem C7_anchor_extraction (v : Json) :
    extractAnchors v = (anchoredNodes v).filterMap
      (fun pa => if jsTruthy pa.2 then some (renderPath pa.1, pa.2) else none) ∧
    (wfJson v = true → ((anchoredNodes v).map Prod.fst).Nodup) ∧
    (∀ pa ∈ anchoredNodes v, jsTruthy pa.2 = true →
      (renderPath pa.1, pa.2) ∈ extractAnchors v) := by
  have heq := extractFromValue_eq v []
  refine ⟨heq, fun h => anchoredNodes_nodup v h, ?_⟩
  intro pa hpa ht
  have heq2 : extractAnchors v = (anchoredNodes v).filterMap
      (fun pa => if jsTruthy pa.2 then some (renderPath pa.1, pa.2) else none) := heq
  rw [heq2]
  apply List.mem_filterMap.mpr
  exact ⟨pa, hpa, by simp [ht]⟩

/-! ### String replacement -/

theorem notEmpty_bool (pat : List Char) (hne : pat ≠ []) : (!pat.isEmpty) = true := by
  cases pat with
  | nil => exact absurd rfl hne
  | cons a l => rfl

theorem getSubstitution_of_not_mem (matched pre suf : List Char) :
    ∀ rep : List Char, '$' ∉ rep → getSubstitution matched pre suf rep = rep := by
  intro rep
  induction rep with
  | nil => intro _; rfl
  | cons c1 tail ih =>
      intro hd
      cases tail with
      | nil => rfl
      | cons c2 rest =>
          have hc1 : ¬ c1 = '$' := by
            intro he
            apply hd
            rw [← he]
            exact List.mem_cons_self _ _
          have htl : '$' ∉ c2 :: rest := fun hm => hd (List.mem_cons_of_mem c1 hm)
          simp only [getSubstitution]
          rw [if_neg hc1, ih htl]

theorem replaceAllGo_fuel (pat rep : List Char) :
    ∀ (f1 f2 : Nat) (acc s : List Char), s.length ≤ f1 → s.length ≤ f2 →
      replaceAllGo pat rep f1 acc s = replaceAllGo pat rep f2 acc s := by
  intro f1
  induction f1 with
  | zero =>
      intro f2 acc s h1 h2
      have hs : s = [] := List.length_eq_zero.mp (by omega)
      subst hs
      cases f2 <;> simp [replaceAllGo]
  | succ f1 ih =>
      intro f2 acc s h1 h2
      cases s with
      | nil => cases f2 <;> simp [replaceAllGo]
      | cons c rest =>
          cases f2 with
          | zero => simp at h2
          | succ f2 =>
              simp only [replaceAllGo]
              simp only [List.length_cons] at h1 h2
              by_cases hm : (pat.isPrefixOf (c :: rest) && !pat.isEmpty) = true
              · rw [if_pos hm, if_pos hm]
                congr 1
                apply ih
                · have := List.length_drop (pat.length - 1) rest
                  omega
                · have := List.length_drop (pat.length - 1) rest
                  omega
              · rw [if_neg hm, if_neg hm]
                congr 1
                apply ih <;> omega

theorem replaceAllGo_acc (pat rep : List Char) (hd : '$' ∉ rep) :
    ∀ (f : Nat) (acc1 acc2 s : List Char),
      replaceAllGo pat rep f acc1 s = replaceAllGo pat rep f acc2 s := by
  intro f
  induction f with
  | zero => intro acc1 acc2 s; rfl
  | succ f ih =>
      intro acc1 acc2 s
      cases s with
      | nil => rfl
      | cons c rest =>
          simp only [replaceAllGo]
          by_cases hm : (pat.isPrefixOf (c :: rest) && !pat.isEmpty) = true
          · rw [if_pos hm, if_pos hm,
              getSubstitution_of_not_mem pat acc1 (rest.drop (pat.length - 1)) rep hd,
              getSubstitution_of_not_mem pat acc2 (rest.drop (pat.length - 1)) rep hd,
              ih (acc1 ++ pat) (acc2 ++ pat) (rest.drop (pat.length - 1))]
          · rw [if_neg hm, if_neg hm, ih (acc1 ++ [c]) (acc2 ++ [c]) rest]

theorem replaceAll_nil (pat rep : List Char) : replaceAll pat rep [] = [] := rfl

theorem replaceAll_cons_match (pat rep : List Char) (c : Char) (rest : List Char)
    (h : (pat.isPrefixOf (c :: rest) && !pat.isEmpty) = true) (hd : '$' ∉ rep) :
    replaceAll pat rep (c :: rest) =
      rep ++ replaceAll pat rep (rest.drop (pat.length - 1)) := by
  show replaceAllGo pat rep (rest.length + 1) [] (c :: rest) = _
  rw [replaceAllGo, if_pos h,
    getSubstitution_of_not_mem pat [] (rest.drop (pat.length - 1)) rep hd]
  congr 1
  rw [replaceAllGo_acc pat rep hd rest.length ([] ++ pat) [] (rest.drop (pat.length - 1))]
  apply replaceAllGo_fuel
  · have := List.length_drop (pat.length - 1) rest
    omega
  · omega

theorem replaceAll_cons_nomatch (pat rep : List Char) (c : Char) (rest : List Char)
    (h : (pat.isPrefixOf (c :: rest) && !pat.isEmpty) = false) (hd : '$' ∉ rep) :
    replaceAll pat rep (c :: rest) = c :: replaceAll pat rep rest := by
  show replaceAllGo pat rep (rest.length + 1) [] (c :: rest) = _
  rw [replaceAllGo, if_neg (by rw [h]; simp)]
  rw [replaceAllGo_acc pat rep hd rest.length ([] ++ [c]) [] rest]
  rfl

theorem replaceAllGo_not_infix (pat rep : List Char) :
    ∀ (n : Nat) (s acc : List Char), s.length ≤ n → ¬ pat <:+: s →
      replaceAllGo pat rep n acc s = s := by
  intro n
  induction n with
  | zero => intro s acc _ _; rfl
  | succ n ih =>
      intro s acc h1 h2
      cases s with
      | nil => rfl
      | cons c rest =>
          have hm : pat.isPrefixOf (c :: rest) = false := by
            by_contra hb
            rw [Bool.not_eq_false] at hb
            exact h2 (List.isPrefixOf_iff_prefix.mp hb).isInfix
          rw [replaceAllGo, if_neg (by rw [hm]; simp)]
          rw [ih rest (acc ++ [c])
            (by simp only [List.length_cons] at h1; omega)
            (fun hsub => h2 (List.infix_cons hsub))]

theorem replaceAll_of_not_infix (pat rep : List Char) :
    ∀ s, ¬ pat <:+: s → replaceAll pat rep s = s := by
  intro s h
  exact replaceAllGo_not_infix pat rep s.length s [] le_rfl h

theorem replaceAll_self (pat rep : List Char) (hne : pat ≠ []) (hd : '$' ∉ rep) :
    replaceAll pat rep pat = rep := by
  cases pat with
  | nil => exact absurd rfl hne
  | cons c p2 =>
      rw [replaceAll_cons_match (c :: p2) rep c p2 (by
        simp [List.isPrefixOf_iff_prefix.mpr (List.prefix_refl (c :: p2))]) hd]
      simp only [List.length_cons, Nat.add_sub_cancel, List.drop_length]
      rw [replaceAll_nil]
      simp

theorem REdge_suffix (pat s s2 : List Char) (hsub : s2 <:+ s) (h : REdge pat s) :
    REdge pat s2 := by
  intro k hk hk0 hsuf
  exact h k hk hk0 (hsuf.trans hsub)

theorem prefix_append_short (pat A B : List Char) (h : pat <+: A ++ B)
    (hlen : pat.length ≤ A.length) : pat <+: A := by
  have heq := List.prefix_iff_eq_take.mp h
  rw [List.take_append_of_le_length hlen] at heq
  rw [List.prefix_iff_eq_take]
  exact heq

theorem prefix_append_long (pat A B : List Char) (h : pat <+: A ++ B)
    (hlen : A.length < pat.length) :
    pat.take A.length = A ∧ pat.drop A.length <+: B := by
  have heq := List.prefix_iff_eq_take.mp h
  have htake : pat.take A.length = A := by
    have h2 : pat.take A.length = ((A ++ B).take pat.length).take A.length := by
      rw [← heq]
    rw [List.take_take] at h2
    have hmin : min A.length pat.length = A.length := by omega
    rw [hmin] at h2
    rw [h2, List.take_append_of_le_length (le_refl _), List.take_length]
  refine ⟨htake, ?_⟩
  obtain ⟨t, ht⟩ := h
  have hpat : pat = A ++ pat.drop A.length := by
    conv =>
      lhs
      rw [← List.take_append_drop A.length pat]
    rw [htake]
  rw [hpat, List.append_assoc] at ht
  have hB : B = pat.drop A.length ++ t := by
    have := List.append_cancel_left ht
    exact this.symm
  exact ⟨t, hB.symm⟩

theorem replaceAll_append (pat rep : List Char) (hne : pat ≠ []) (hd : '$' ∉ rep) :
    ∀ (n : Nat) (A B : List Char), A.length ≤ n → REdge pat A →
      replaceAll pat rep (A ++ B) =
        replaceAll pat rep A ++ replaceAll pat rep B := by
  intro n
  induction n with
  | zero =>
      intro A B hA _
      have : A = [] := List.length_eq_zero.mp (by omega)
      subst this
      simp [replaceAll_nil]
  | succ n ih =>
      intro A B hA hR
      cases A with
      | nil => simp [replaceAll_nil]
      | cons c A2 =>
          simp only [List.length_cons] at hA
          by_cases hm : pat.isPrefixOf (c :: A2 ++ B) = true
          · have hpre := List.isPrefixOf_iff_prefix.mp hm
            have hlen : pat.length ≤ (c :: A2).length := by
              by_contra hlong
              push_neg at hlong
              obtain ⟨htake, _⟩ := prefix_append_long pat (c :: A2) B hpre hlong
              refine hR (c :: A2).length hlong (by simp) ?_
              rw [htake]
            have hmA : pat.isPrefixOf (c :: A2) = true :=
              List.isPrefixOf_iff_prefix.mpr (prefix_append_short pat (c :: A2) B hpre hlen)
            have hcond : (pat.isPrefixOf (c :: A2 ++ B) && !pat.isEmpty) = true := by
              rw [hm, notEmpty_bool pat hne]
              rfl
            have hcondA : (pat.isPrefixOf (c :: A2) && !pat.isEmpty) = true := by
              rw [hmA, notEmpty_bool pat hne]
              rfl
            rw [show ((c :: A2) ++ B) = c :: (A2 ++ B) from rfl]
            rw [replaceAll_cons_match pat rep c (A2 ++ B) hcond hd]
            rw [replaceAll_cons_match pat rep c A2 hcondA hd]
            have hdrop : (A2 ++ B).drop (pat.length - 1) =
                A2.drop (pat.length - 1) ++ B := by
              apply List.drop_append_of_le_length
              simp only [List.length_cons] at hlen
              omega
            rw [hdrop]
            rw [ih (A2.drop (pat.length - 1)) B
              (by have := List.length_drop (pat.length - 1) A2; omega)
              (REdge_suffix pat (c :: A2) _
                ((List.drop_suffix _ _).trans (List.suffix_cons c A2)) hR)]
            simp [List.append_assoc]
          · have hmA : pat.isPrefixOf (c :: A2) = false := by
              by_contra hb
              rw [Bool.not_eq_false] at hb
              have hp2 : pat <+: (c :: A2) ++ B :=
                (List.isPrefixOf_iff_prefix.mp hb).trans (List.prefix_append _ _)
              exact hm (List.isPrefixOf_iff_prefix.mpr hp2)
            rw [show ((c :: A2) ++ B) = c :: (A2 ++ B) from rfl]
            rw [replaceAll_cons_nomatch pat rep c (A2 ++ B)
              (by show (pat.isPrefixOf ((c :: A2) ++ B) && !pat.isEmpty) = false
                  rw [Bool.eq_false_iff.mpr hm]; rfl) hd]
            rw [replaceAll_cons_nomatch pat rep c A2 (by rw [hmA]; rfl) hd]
            rw [ih A2 B (by omega)
              (REdge_suffix pat (c :: A2) A2 (List.suffix_cons c A2) hR)]
            rfl

theorem infix_append_split (pat A B : List Char) (h : pat <:+: A ++ B) :
    pat <:+: A ∨ pat <:+: B ∨
      ∃ k, 0 < k ∧ k < pat.length ∧ pat.take k <:+ A ∧ pat.drop k <+: B := by
  induction A with
  | nil => right; left; simpa using h
  | cons c A2 ih =>
      rw [show ((c :: A2) ++ B) = c :: (A2 ++ B) from rfl, List.infix_cons_iff] at h
      rcases h with h | h
      · by_cases hlen : pat.length ≤ (c :: A2).length
        · left
          exact (prefix_append_short pat (c :: A2) B h hlen).isInfix
        · push_neg at hlen
          obtain ⟨htake, hdrop⟩ := prefix_append_long pat (c :: A2) B h hlen
          right; right
          refine ⟨(c :: A2).length, by simp, hlen, ?_, hdrop⟩
          rw [htake]
      · rcases ih h with h2 | h2 | ⟨k, hk1, hk2, hk3, hk4⟩
        · left; exact List.infix_cons h2
        · right; left; exact h2
        · right; right
          exact ⟨k, hk1, hk2, hk3.trans (List.suffix_cons c A2), hk4⟩

theorem not_infix_append (pat A B : List Char) (hA : ¬ pat <:+: A) (hB : ¬ pat <:+: B)
    (hR : REdge pat A) : ¬ pat <:+: (A ++ B) := by
  intro h
  rcases infix_append_split pat A B h with h | h | ⟨k, hk1, hk2, hk3, _⟩
  · exact hA h
  · exact hB h
  · exact hR k hk2 hk1 hk3

theorem replaceFirstGo_acc (pat rep : List Char) (hd : '$' ∉ rep) :
    ∀ (f : Nat) (acc1 acc2 s : List Char),
      replaceFirstGo pat rep f acc1 s = replaceFirstGo pat rep f acc2 s := by
  intro f
  induction f with
  | zero => intro acc1 acc2 s; rfl
  | succ f ih =>
      intro acc1 acc2 s
      cases s with
      | nil => rfl
      | cons c rest =>
          simp only [replaceFirstGo]
          by_cases hm : (pat.isPrefixOf (c :: rest) && !pat.isEmpty) = true
          · rw [if_pos hm, if_pos hm,
              getSubstitution_of_not_mem pat acc1 (rest.drop (pat.length - 1)) rep hd,
              getSubstitution_of_not_mem pat acc2 (rest.drop (pat.length - 1)) rep hd]
          · rw [if_neg hm, if_neg hm, ih (acc1 ++ [c]) (acc2 ++ [c]) rest]

theorem replaceFirst_cons_match (pat rep : List Char) (c : Char) (rest : List Char)
    (h : (pat.isPrefixOf (c :: rest) && !pat.isEmpty) = true) (hd : '$' ∉ rep) :
    replaceFirst pat rep (c :: rest) = rep ++ rest.drop (pat.length - 1) := by
  show replaceFirstGo pat rep (rest.length + 1) [] (c :: rest) = _
  rw [replaceFirstGo, if_pos h,
    getSubstitution_of_not_mem pat [] (rest.drop (pat.length - 1)) rep hd]

theorem replaceFirst_cons_nomatch (pat rep : List Char) (c : Char) (rest : List Char)
    (h : (pat.isPrefixOf (c :: rest) && !pat.isEmpty) = false) (hd : '$' ∉ rep) :
    replaceFirst pat rep (c :: rest) = c :: replaceFirst pat rep rest := by
  show replaceFirstGo pat rep (rest.length + 1) [] (c :: rest) = _
  rw [replaceFirstGo, if_neg (by rw [h]; simp)]
  rw [replaceFirstGo_acc pat rep hd rest.length ([] ++ [c]) [] rest]
  rfl

theorem replaceFirst_insert (pat rep : List Char) (hne : pat ≠ []) (hd : '$' ∉ rep) :
    ∀ (n : Nat) (A B : List Char), A.length ≤ n → ¬ pat <:+: A → REdge pat A →
      replaceFirst pat rep (A ++ (pat ++ B)) = A ++ rep ++ B := by
  intro n
  induction n with
  | zero =>
      intro A B hA _ _
      have : A = [] := List.length_eq_zero.mp (by omega)
      subst this
      simp only [List.nil_append]
      cases pat with
      | nil => exact absurd rfl hne
      | cons c p2 =>
          rw [show ((c :: p2) ++ B) = c :: (p2 ++ B) from rfl]
          rw [replaceFirst_cons_match (c :: p2) rep c (p2 ++ B) (by
            simp [List.isPrefixOf_iff_prefix.mpr (List.prefix_append (c :: p2) B)]) hd]
          simp only [List.length_cons, Nat.add_sub_cancel]
          rw [List.drop_left]
  | succ n ih =>
      intro A B hA hInf hR
      cases A with
      | nil =>
          simp only [List.nil_append]
          cases pat with
          | nil => exact absurd rfl hne
          | cons c p2 =>
              rw [show ((c :: p2) ++ B) = c :: (p2 ++ B) from rfl]
              rw [replaceFirst_cons_match (c :: p2) rep c (p2 ++ B) (by
                simp [List.isPrefixOf_iff_prefix.mpr (List.prefix_append (c :: p2) B)]) hd]
              simp only [List.length_cons, Nat.add_sub_cancel]
              rw [List.drop_left]
      | cons c A2 =>
          simp only [List.length_cons] at hA
          have hm : pat.isPrefixOf (c :: A2 ++ (pat ++ B)) = false := by
            by_contra hb
            rw [Bool.not_eq_false] at hb
            have hpre := List.isPrefixOf_iff_prefix.mp hb
            by_cases hlen : pat.length ≤ (c :: A2).length
            · exact hInf (prefix_append_short pat (c :: A2) (pat ++ B) hpre hlen).isInfix
            · push_neg at hlen
              obtain ⟨htake, _⟩ := prefix_append_long pat (c :: A2) (pat ++ B) hpre hlen
              refine hR (c :: A2).length hlen (by simp) ?_
              rw [htake]
          rw [show ((c :: A2) ++ (pat ++ B)) = c :: (A2 ++ (pat ++ B)) from rfl]
          rw [replaceFirst_cons_nomatch pat rep c (A2 ++ (pat ++ B))
            (by show (pat.isPrefixOf ((c :: A2) ++ (pat ++ B)) && !pat.isEmpty) = false
                rw [hm]; rfl) hd]
          rw [ih A2 B (by omega) (fun hsub => hInf (List.infix_cons hsub))
            (REdge_suffix pat (c :: A2) A2 (List.suffix_cons c A2) hR)]
          rfl

/-- Witness for C7 at a concrete parsed result with one truthy
anchored sub-object. -/
theorem C7_anchor_extraction_witness :
    wfJson demoAnchored = true ∧
    (extractAnchors demoAnchored = (anchoredNodes demoAnchored).filterMap
        (fun pa => if jsTruthy pa.2 then some (renderPath pa.1, pa.2) else none) ∧
      (wfJson demoAnchored = true → ((anchoredNodes demoAnchored).map Prod.fst).Nodup) ∧
      (∀ pa ∈ anchoredNodes demoAnchored, jsTruthy pa.2 = true →
        (renderPath pa.1, pa.2) ∈ extractAnchors demoAnchored)) :=
  ⟨by decide, C7_anchor_extraction demoAnchored⟩

/-! ### Context substitution over template segments -/

theorem ph_ne_nil (k : List Char) : ph k ≠ [] := by
  simp [ph]

theorem phPairs : ∀ k1 ∈ analysisStepOrder, ∀ k2 ∈ analysisStepOrder,
    REdge (ph k1) (ph k2) ∧ (k1 ≠ k2 → ¬ ph k1 <:+: ph k2) := by
  decide

theorem joinL_infix (L : List (List Char)) (s : List Char) (h : s ∈ L) :
    s <:+: joinL L := by
  induction L with
  | nil => cases h
  | cons a rest ih =>
      rcases List.mem_cons.mp h with rfl | h2
      · exact ⟨[], joinL rest, by simp [joinL]⟩
      · obtain ⟨u, v, huv⟩ := ih h2
        exact ⟨a ++ u, v, by simp [joinL, List.append_assoc, huv]⟩

theorem replaceAll_joinL (pat rep : List Char) (hne : pat ≠ []) (hd : '$' ∉ rep) :
    ∀ (L : List (List Char)), (∀ s ∈ L, REdge pat s) →
      replaceAll pat rep (joinL L) = joinL (L.map (replaceAll pat rep)) := by
  intro L
  induction L with
  | nil => intro _; simp [joinL, replaceAll_nil]
  | cons a rest ih =>
      intro h
      show replaceAll pat rep (a ++ joinL rest) = _
      rw [replaceAll_append pat rep hne hd a.length a (joinL rest) le_rfl (h a (by simp))]
      rw [ih (fun s hs => h s (by simp [hs]))]
      rfl

theorem lookupCtx_mem (done : List (List Char × Json)) (k : List Char) (v : Json)
    (h : lookupCtx done k = some v) : (k, v) ∈ done := by
  induction done with
  | nil => simp [lookupCtx] at h
  | cons p rest ih =>
      rw [show lookupCtx (p :: rest) k = if p.1 = k then some p.2 else lookupCtx rest k from by
        obtain ⟨a, b⟩ := p
        rfl] at h
      by_cases hk : p.1 = k
      · rw [if_pos hk] at h
        have hv := Option.some.inj h
        exact List.mem_cons.mpr (Or.inl (by rw [Prod.ext_iff]; exact ⟨hk.symm, hv.symm⟩))
      · rw [if_neg hk] at h
        exact List.mem_cons.mpr (Or.inr (ih h))

theorem lookupCtx_append (done extra : List (List Char × Json)) (k : List Char) :
    lookupCtx (done ++ extra) k =
      match lookupCtx done k with
      | some v => some v
      | none => lookupCtx extra k := by
  induction done with
  | nil => rfl
  | cons p rest ih =>
      obtain ⟨a, b⟩ := p
      by_cases hk : a = k
      · simp [lookupCtx, hk]
      · simp [lookupCtx, hk, ih]

theorem segExpand_replaceAll (done : List (List Char × Json)) (key : List Char) (value : Json)
    (hkey : key ∈ analysisStepOrder)
    (hdv : '$' ∉ ctxSerialize value)
    (hdone : ∀ p ∈ done, StepClean (ctxSerialize p.2))
    (hnew : lookupCtx done key = none) :
    ∀ seg : Seg, (∀ s, seg = Seg.lit s → StepClean s) →
      (∀ k, seg = Seg.hole k → k ∈ analysisStepOrder) →
      replaceAll (ph key) (ctxSerialize value) (segExpand done seg) =
        segExpand (done ++ [(key, value)]) seg := by
  intro seg hlit hhole
  cases seg with
  | lit s =>
      show replaceAll (ph key) (ctxSerialize value) s = s
      exact replaceAll_of_not_infix _ _ s ((hlit s rfl) key hkey).1
  | hole k =>
      cases hl : lookupCtx done k with
      | some v =>
          have hcv : StepClean (ctxSerialize v) := hdone (k, v) (lookupCtx_mem done k v hl)
          have h1 : segExpand done (Seg.hole k) = ctxSerialize v := by
            simp [segExpand, hl]
          have h2 : segExpand (done ++ [(key, value)]) (Seg.hole k) = ctxSerialize v := by
            simp [segExpand, lookupCtx_append, hl]
          rw [h1, h2]
          exact replaceAll_of_not_infix _ _ _ (hcv key hkey).1
      | none =>
          have h1 : segExpand done (Seg.hole k) = ph k := by
            simp [segExpand, hl]
          by_cases hk : k = key
          · subst hk
            have h2 : segExpand (done ++ [(k, value)]) (Seg.hole k) = ctxSerialize value := by
              simp [segExpand, lookupCtx_append, hl, lookupCtx]
            rw [h1, h2]
            exact replaceAll_self (ph k) _ (ph_ne_nil k) hdv
          · have h2 : segExpand (done ++ [(key, value)]) (Seg.hole k) = ph k := by
              simp [segExpand, lookupCtx_append, hl, lookupCtx, Ne.symm hk]
            rw [h1, h2]
            exact replaceAll_of_not_infix _ _ _
              ((phPairs key hkey k (hhole k rfl)).2 (fun he => hk he.symm))

theorem segExpand_REdge (done : List (List Char × Json)) (key : List Char)
    (hkey : key ∈ analysisStepOrder)
    (hdone : ∀ p ∈ done, StepClean (ctxSerialize p.2)) :
    ∀ seg : Seg, (∀ s, seg = Seg.lit s → StepClean s) →
      (∀ k, seg = Seg.hole k → k ∈ analysisStepOrder) →
      REdge (ph key) (segExpand done seg) := by
  intro seg hlit hhole
  cases seg with
  | lit s => exact ((hlit s rfl) key hkey).2
  | hole k =>
      cases hl : lookupCtx done k with
      | some v =>
          have h1 : segExpand done (Seg.hole k) = ctxSerialize v := by
            simp [segExpand, hl]
          rw [h1]
          exact ((hdone (k, v) (lookupCtx_mem done k v hl)) key hkey).2
      | none =>
          have h1 : segExpand done (Seg.hole k) = ph k := by
            simp [segExpand, hl]
          rw [h1]
          exact (phPairs key hkey k (hhole k rfl)).1

theorem replaceContext_segs :
    ∀ (ctx done : List (List Char × Json)) (segs : List Seg),
      (∀ p ∈ ctx, p.1 ∈ analysisStepOrder ∧ StepClean (ctxSerialize p.2)) →
      (∀ p ∈ ctx, '$' ∉ ctxSerialize p.2) →
      (∀ p ∈ done, StepClean (ctxSerialize p.2)) →
      (∀ p ∈ ctx, lookupCtx done p.1 = none) →
      (ctx.map Prod.fst).Nodup →
      (∀ s, Seg.lit s ∈ segs → StepClean s) →
      (∀ k, Seg.hole k ∈ segs → k ∈ analysisStepOrder) →
      replaceContext ctx (joinL (segs.map (segExpand done))) =
        joinL (segs.map (segExpand (done ++ ctx))) := by
  intro ctx
  induction ctx with
  | nil =>
      intro done segs _ _ _ _ _ _ _
      simp [replaceContext]
  | cons p rest ih =>
      obtain ⟨key, value⟩ := p
      intro done segs hctx hdol hdone hfresh hnodup hlit hhole
      have hdv : '$' ∉ ctxSerialize value := hdol (key, value) (by simp)
      have hkey : key ∈ analysisStepOrder := (hctx (key, value) (by simp)).1
      show replaceContext rest
          (replaceAll (ph key) (ctxSerialize value) (joinL (segs.map (segExpand done)))) = _
      rw [replaceAll_joinL (ph key) (ctxSerialize value) (ph_ne_nil key) hdv
        (segs.map (segExpand done))
        (by
          intro s hs
          obtain ⟨seg, hseg, hs2⟩ := List.mem_map.mp hs
          exact hs2 ▸ segExpand_REdge done key hkey hdone seg
            (fun s2 h2 => hlit s2 (h2 ▸ hseg)) (fun k2 h2 => hhole k2 (h2 ▸ hseg)))]
      rw [List.map_map]
      have hmapeq : segs.map ((replaceAll (ph key) (ctxSerialize value)) ∘ (segExpand done))
          = segs.map (segExpand (done ++ [(key, value)])) := by
        apply List.map_congr_left
        intro seg hseg
        exact segExpand_replaceAll done key value hkey hdv hdone
          (hfresh (key, value) (by simp)) seg
          (fun s2 h2 => hlit s2 (h2 ▸ hseg)) (fun k2 h2 => hhole k2 (h2 ▸ hseg))
      rw [hmapeq]
      have hnodup2 : key ∉ rest.map Prod.fst ∧ (rest.map Prod.fst).Nodup := by
        rw [List.map_cons] at hnodup
        exact List.nodup_cons.mp hnodup
      have hnotin : key ∉ rest.map Prod.fst := hnodup2.1
      rw [ih (done ++ [(key, value)]) segs
        (fun p hp => hctx p (by simp [hp]))
        (fun p hp => hdol p (by simp [hp]))
        (by
          intro p hp
          rcases List.mem_append.mp hp with hp2 | hp2
          · exact hdone p hp2
          · have hpe : p = (key, value) := by simpa using hp2
            subst hpe
            exact (hctx (key, value) (by simp)).2)
        (by
          intro p hp
          have hne2 : ¬ key = p.1 := by
            intro he
            exact hnotin (he ▸ List.mem_map_of_mem Prod.fst hp)
          simp [lookupCtx_append, hfresh p (by simp [hp]), lookupCtx, hne2])
        hnodup2.2
        hlit hhole]
      rw [List.append_assoc]
      rfl


theorem single_dep_infix {A B C : List Char} (jc : List Char)
    (ctx : List (List Char × Json)) (hjc : StepClean jc) (hdjc : '$' ∉ jc)
    (hctx : ∀ p ∈ ctx, p.1 ∈ analysisStepOrder ∧ StepClean (ctxSerialize p.2))
    (hdol : ∀ p ∈ ctx, '$' ∉ ctxSerialize p.2)
    (hnodup : (ctx.map Prod.fst).Nodup)
    (dep : List Char) (v : Json) (hdepmem : dep ∈ analysisStepOrder)
    (hlook : lookupCtx ctx dep = some v)
    (hA : StepClean A) (hB : StepClean B) (hC : StepClean C)
    (hnotinf : ¬ phJudgmentChunks <:+: A) (hedge : REdge phJudgmentChunks A) :
    ctxSerialize v <:+:
      replaceContext ctx (replaceFirst phJudgmentChunks jc
        (A ++ (phJudgmentChunks ++ (B ++ (ph dep ++ C))))) := by
  rw [replaceFirst_insert phJudgmentChunks jc (by decide) hdjc A.length A
      (B ++ (ph dep ++ C)) le_rfl hnotinf hedge]
  have hjoin : (A ++ jc) ++ (B ++ (ph dep ++ C)) =
      joinL ([Seg.lit A, Seg.lit jc, Seg.lit B, Seg.hole dep, Seg.lit C].map
        (segExpand [])) := by
    simp [joinL, segExpand, lookupCtx, List.append_assoc]
  rw [hjoin]
  have hlits : ∀ s,
      Seg.lit s ∈ [Seg.lit A, Seg.lit jc, Seg.lit B, Seg.hole dep, Seg.lit C] →
        StepClean s := by
    intro s hs
    simp at hs
    rcases hs with rfl | rfl | rfl | rfl
    · exact hA
    · exact hjc
    · exact hB
    · exact hC
  have hholes : ∀ k,
      Seg.hole k ∈ [Seg.lit A, Seg.lit jc, Seg.lit B, Seg.hole dep, Seg.lit C] →
        k ∈ analysisStepOrder := by
    intro k hk
    simp at hk
    subst hk
    exact hdepmem
  rw [replaceContext_segs ctx [] _ hctx hdol (by simp) (fun p _ => rfl) hnodup hlits hholes]
  apply joinL_infix
  exact List.mem_map.mpr ⟨Seg.hole dep, by simp, by simp [segExpand, hlook]⟩

theorem runSteps_spec (backend : Backend) (parseJson : ParseJson) (now : List Char)
    (chunks : List JudgmentChunk) :
    ∀ (steps : List (List Char)) (results : List (List Char × AnalysisStepResult))
      (context : List (List Char × Json)) (tokens calls : Nat)
      (log : List (List Char × List (List Char × Json) × List Char)),
      ∃ (newE : List (List Char × List (List Char × Json) × List Char))
        (newC : List AnalysisStepResult),
        (runSteps backend parseJson now chunks steps results context tokens calls log).promptLog
            = log ++ newE ∧
        (runSteps backend parseJson now chunks steps results context tokens calls log).completed
            = results.map Prod.snd ++ newC ∧
        newE.map Prod.fst = steps.take newE.length ∧
        newC.map (fun r => r.step) = steps.take newC.length ∧
        (∀ i e, newE[i]? = some e →
          i ≤ newC.length ∧
          e.2.1 = context ++ (newC.take i).map (fun r => (r.step, r.result)) ∧
          ∃ sys fmt, generateAnalysisPrompt e.1 (chunksTextFor chunks e.1) e.2.1
              = Except.ok (sys, e.2.2, fmt)) := by
  intro steps
  induction steps with
  | nil =>
      intro results context tokens calls log
      refine ⟨[], [], ?_, ?_, rfl, rfl, ?_⟩
      · simp [runSteps]
      · simp [runSteps]
      · intro i e he
        simp at he
  | cons step rest ih =>
      intro results context tokens calls log
      cases hgen : generateAnalysisPrompt step (chunksTextFor chunks step) context with
      | error err =>
          refine ⟨[], [], ?_, ?_, rfl, rfl, ?_⟩
          · simp [runSteps, hgen]
          · simp [runSteps, hgen]
          · intro i e he
            simp at he
      | ok triple =>
          obtain ⟨sys, user, fmt⟩ := triple
          rcases hcall : callLLMWithRetry backend sys user step CALL_RETRIES calls with
            ⟨res, calls2⟩
          cases res with
          | error err =>
              refine ⟨[(step, context, user)], [], ?_, ?_, rfl, rfl, ?_⟩
              · simp [runSteps, hgen, hcall]
              · simp [runSteps, hgen, hcall]
              · intro i e he
                cases i with
                | zero =>
                    simp only [List.getElem?_cons_zero, Option.some.injEq] at he
                    subst he
                    exact ⟨Nat.zero_le _, by simp, sys, fmt, hgen⟩
                | succ i => simp at he
          | ok content =>
              cases hparse : parseAndValidateResponse parseJson content step with
              | error err =>
                  refine ⟨[(step, context, user)], [], ?_, ?_, rfl, rfl, ?_⟩
                  · simp [runSteps, hgen, hcall, hparse]
                  · simp [runSteps, hgen, hcall, hparse]
                  · intro i e he
                    cases i with
                    | zero =>
                        simp only [List.getElem?_cons_zero, Option.some.injEq] at he
                        subst he
                        exact ⟨Nat.zero_le _, by simp, sys, fmt, hgen⟩
                    | succ i => simp at he
              | ok parsed =>
                  obtain ⟨newE, newC, h1, h2, h3, h4, h5⟩ :=
                    ih (results ++ [(step,
                        { step := step, result := parsed,
                          anchors := extractAnchors parsed, model := MODEL,
                          tokensUsed := 0, timestamp := now })])
                      (context ++ [(step, parsed)]) (tokens + 0) calls2
                      (log ++ [(step, context, user)])
                  have hred : runSteps backend parseJson now chunks (step :: rest)
                        results context tokens calls log =
                      runSteps backend parseJson now chunks rest
                        (results ++ [(step,
                          { step := step, result := parsed,
                            anchors := extractAnchors parsed, model := MODEL,
                            tokensUsed := 0, timestamp := now })])
                        (context ++ [(step, parsed)]) (tokens + 0) calls2
                        (log ++ [(step, context, user)]) := by
                    simp only [runSteps, hgen, hcall, hparse]
                  refine ⟨(step, context, user) :: newE,
                    { step := step, result := parsed, anchors := extractAnchors parsed,
                      model := MODEL, tokensUsed := 0, timestamp := now } :: newC,
                    ?_, ?_, ?_, ?_, ?_⟩
                  · rw [hred, h1, List.append_assoc]
                    rfl
                  · rw [hred, h2, List.map_append]
                    simp [List.append_assoc]
                  · simp [h3, List.take_succ_cons]
                  · simp [h4, List.take_succ_cons]
                  · intro i e he
                    cases i with
                    | zero =>
                        simp only [List.getElem?_cons_zero, Option.some.injEq] at he
                        subst he
                        exact ⟨Nat.zero_le _, by simp, sys, fmt, hgen⟩
                    | succ i =>
                        simp only [List.getElem?_cons_succ] at he
                        obtain ⟨hle, hctx2, hex⟩ := h5 i e he
                        refine ⟨by simpa using Nat.succ_le_succ hle, ?_, hex⟩
                        rw [hctx2]
                        simp [List.take_succ_cons, List.append_assoc]


theorem getElem_take_lt {α : Type} (l : List α) (n i : Nat) (h : i < n) :
    (l.take n)[i]? = l[i]? := by
  induction l generalizing n i with
  | nil => simp
  | cons a rest ih =>
      cases n with
      | zero => omega
      | succ n =>
          cases i with
          | zero => simp
          | succ i => simpa using ih n i (by omega)

/-- C2 counterexample: metadata is step 1 and timeline step 3 of the
fixed order, and the context handed to the timeline step holds
metadata\x27s parsed result; yet the assembled timeline prompt does not
contain that serialized result — the timeline template references only
the facts placeholder — so the prompt misses a completed step 1..K-1
result. -/
theorem C2_counterexample :
    analysisStepOrder[0]? = some (("metadata").toList) ∧
    analysisStepOrder[2]? = some (("timeline").toList) ∧
    generateAnalysisPrompt (("timeline").toList) demoJC demoCtxC2 =
      Except.ok (timelinePrompt.systemPrompt, demoPromptC2, timelinePrompt.outputFormat) ∧
    demoCtxC2[0]? = some ((("metadata").toList), Json.str (("R0").toList)) ∧
    ctxSerialize (Json.str (("R0").toList)) = ("R0").toList ∧
    (("R1").toList <:+: demoPromptC2) ∧
    ¬ (("R0").toList <:+: demoPromptC2) := by
  decide

/-- C2 corrected: (1) in every run, the prompt logged for the step at
position i of the fixed order is assembled by `generateAnalysisPrompt`
from a context whose keys are exactly the steps at positions 0..i-1,
in order — so no result from any later step can reach it; (2) the
assembled prompt contains the serialized result of each of the step
template\x27s dependency steps (`stepDeps`) bound in the context —
a subset of steps 1..K-1, not all of them — whenever the judgment
text and the serialized results are placeholder-hygienic and free of
dollar signs (so that `GetSubstitution` inserts them verbatim). -/
theorem C2_step_context :
    (∀ (backend : Backend) (parseJson : ParseJson) (now jid : List Char)
        (chunks : List JudgmentChunk) (i : Nat)
        (e : List Char × List (List Char × Json) × List Char),
      (analyzeJudgment backend parseJson now jid chunks).promptLog[i]? = some e →
        analysisStepOrder[i]? = some e.1 ∧
        e.2.1.map Prod.fst = analysisStepOrder.take i ∧
        ∃ sys fmt, generateAnalysisPrompt e.1 (chunksTextFor chunks e.1) e.2.1
            = Except.ok (sys, e.2.2, fmt)) ∧
    (∀ step ∈ analysisStepOrder, ∀ (jc : List Char) (ctx : List (List Char × Json)),
      StepClean jc → '$' ∉ jc →
      (∀ p ∈ ctx, p.1 ∈ analysisStepOrder ∧ StepClean (ctxSerialize p.2)) →
      (∀ p ∈ ctx, '$' ∉ ctxSerialize p.2) →
      (ctx.map Prod.fst).Nodup →
      ∀ (key : List Char) (v : Json), key ∈ stepDeps step → lookupCtx ctx key = some v →
        ∃ sys u fmt, generateAnalysisPrompt step jc ctx = Except.ok (sys, u, fmt) ∧
          ctxSerialize v <:+: u) := by
  constructor
  · intro backend parseJson now jid chunks i e he
    obtain ⟨newE, newC, h1, h2, h3, h4, h5⟩ :=
      runSteps_spec backend parseJson now chunks analysisStepOrder [] [] 0 0 []
    have he2 : newE[i]? = some e := by
      have hlog : (analyzeJudgment backend parseJson now jid chunks).promptLog = newE := by
        rw [show analyzeJudgment backend parseJson now jid chunks =
          runSteps backend parseJson now chunks analysisStepOrder [] [] 0 0 [] from rfl, h1]
        rfl
      rwa [hlog] at he
    have hi : i < newE.length := by
      by_contra hbig
      push_neg at hbig
      rw [List.getElem?_eq_none hbig] at he2
      exact Option.noConfusion he2
    obtain ⟨hle, hctx, hex⟩ := h5 i e he2
    refine ⟨?_, ?_, hex⟩
    · have hm : (newE.map Prod.fst)[i]? = some e.1 := by
        rw [List.getElem?_map, he2]
        rfl
      rw [h3, getElem_take_lt analysisStepOrder newE.length i hi] at hm
      exact hm
    · rw [hctx, List.nil_append, List.map_map]
      have hcomp : (Prod.fst ∘ fun (r : AnalysisStepResult) => (r.step, r.result))
          = fun r => r.step := rfl
      rw [hcomp, List.map_take, h4, List.take_take, min_eq_left hle]
  · intro step hstep jc ctx hjc hdjc hctx hdol hnodup key v hdep hlook
    simp only [analysisStepOrder, List.mem_cons, List.not_mem_nil, or_false] at hstep
    rcases hstep with rfl | rfl | rfl | rfl | rfl | rfl | rfl | rfl | rfl | rfl
    · rw [show stepDeps (("metadata").toList) = [] from by decide] at hdep
      exact absurd hdep (List.not_mem_nil key)
    · rw [show stepDeps (("facts").toList) = [("metadata").toList] from by decide] at hdep
      have hkey : key = ("metadata").toList := by simpa using hdep
      subst hkey
      refine ⟨factsPrompt.systemPrompt, _, factsPrompt.outputFormat, rfl, ?_⟩
      rw [show factsPrompt.userPromptTemplate =
        factsPrompt.userPromptTemplate.take 67 ++ (phJudgmentChunks ++
          ((factsPrompt.userPromptTemplate.drop 83).take 20 ++
            (ph (("metadata").toList) ++ factsPrompt.userPromptTemplate.drop 113)))
        from by decide]
      exact single_dep_infix jc ctx hjc hdjc hctx hdol hnodup (("metadata").toList) v (by decide) hlook
        (by decide) (by decide) (by decide) (by decide) (by decide)
    · rw [show stepDeps (("timeline").toList) = [("facts").toList] from by decide] at hdep
      have hkey : key = ("facts").toList := by simpa using hdep
      subst hkey
      refine ⟨timelinePrompt.systemPrompt, _, timelinePrompt.outputFormat, rfl, ?_⟩
      rw [show timelinePrompt.userPromptTemplate =
        timelinePrompt.userPromptTemplate.take 70 ++ (phJudgmentChunks ++
          ((timelinePrompt.userPromptTemplate.drop 86).take 17 ++
            (ph (("facts").toList) ++ timelinePrompt.userPromptTemplate.drop 110)))
        from by decide]
      exact single_dep_infix jc ctx hjc hdjc hctx hdol hnodup (("facts").toList) v (by decide) hlook
        (by decide) (by decide) (by decide) (by decide) (by decide)
    · rw [show stepDeps (("issues").toList) = [("facts").toList] from by decide] at hdep
      have hkey : key = ("facts").toList := by simpa using hdep
      subst hkey
      refine ⟨issuesPrompt.systemPrompt, _, issuesPrompt.outputFormat, rfl, ?_⟩
      rw [show issuesPrompt.userPromptTemplate =
        issuesPrompt.userPromptTemplate.take 62 ++ (phJudgmentChunks ++
          ((issuesPrompt.userPromptTemplate.drop 78).take 17 ++
            (ph (("facts").toList) ++ issuesPrompt.userPromptTemplate.drop 102)))
        from by decide]
      exact single_dep_infix jc ctx hjc hdjc hctx hdol hnodup (("facts").toList) v (by decide) hlook
        (by decide) (by decide) (by decide) (by decide) (by decide)
    · rw [show stepDeps (("arguments").toList) = [("issues").toList] from by decide] at hdep
      have hkey : key = ("issues").toList := by simpa using hdep
      subst hkey
      refine ⟨argumentsPrompt.systemPrompt, _, argumentsPrompt.outputFormat, rfl, ?_⟩
      rw [show argumentsPrompt.userPromptTemplate =
        argumentsPrompt.userPromptTemplate.take 58 ++ (phJudgmentChunks ++
          ((argumentsPrompt.userPromptTemplate.drop 74).take 18 ++
            (ph (("issues").toList) ++ argumentsPrompt.userPromptTemplate.drop 100)))
        from by decide]
      exact single_dep_infix jc ctx hjc hdjc hctx hdol hnodup (("issues").toList) v (by decide) hlook
        (by decide) (by decide) (by decide) (by decide) (by decide)
    · rw [show stepDeps (("ratio").toList) = [("issues").toList] from by decide] at hdep
      have hkey : key = ("issues").toList := by simpa using hdep
      subst hkey
      refine ⟨ratioPrompt.systemPrompt, _, ratioPrompt.outputFormat, rfl, ?_⟩
      rw [show ratioPrompt.userPromptTemplate =
        ratioPrompt.userPromptTemplate.take 64 ++ (phJudgmentChunks ++
          ((ratioPrompt.userPromptTemplate.drop 80).take 18 ++
            (ph (("issues").toList) ++ ratioPrompt.userPromptTemplate.drop 106)))
        from by decide]
      exact single_dep_infix jc ctx hjc hdjc hctx hdol hnodup (("issues").toList) v (by decide) hlook
        (by decide) (by decide) (by decide) (by decide) (by decide)
    · rw [show stepDeps (("obiter").toList) = [("ratio").toList] from by decide] at hdep
      have hkey : key = ("ratio").toList := by simpa using hdep
      subst hkey
      refine ⟨obiterPrompt.systemPrompt, _, obiterPrompt.outputFormat, rfl, ?_⟩
      rw [show obiterPrompt.userPromptTemplate =
        obiterPrompt.userPromptTemplate.take 57 ++ (phJudgmentChunks ++
          ((obiterPrompt.userPromptTemplate.drop 73).take 17 ++
            (ph (("ratio").toList) ++ obiterPrompt.userPromptTemplate.drop 97)))
        from by decide]
      exact single_dep_infix jc ctx hjc hdjc hctx hdol hnodup (("ratio").toList) v (by decide) hlook
        (by decide) (by decide) (by decide) (by decide) (by decide)
    · rw [show stepDeps (("statutes").toList) = [] from by decide] at hdep
      exact absurd hdep (List.not_mem_nil key)
    · rw [show stepDeps (("precedents").toList) = [] from by decide] at hdep
      exact absurd hdep (List.not_mem_nil key)
    · rw [show stepDeps (("summary").toList) =
        [("metadata").toList, ("facts").toList, ("timeline").toList, ("issues").toList,
         ("arguments").toList, ("ratio").toList, ("obiter").toList, ("statutes").toList,
         ("precedents").toList] from by decide] at hdep
      refine ⟨summaryPrompt.systemPrompt, _, summaryPrompt.outputFormat, rfl, ?_⟩
      rw [show summaryPrompt.userPromptTemplate = (summaryPrompt.userPromptTemplate.take 66) ++ (phJudgmentChunks ++ (((summaryPrompt.userPromptTemplate.drop 82).take 30) ++ (ph ((("metadata")).toList) ++ ((summaryPrompt.userPromptTemplate.drop 122).take 8) ++ (ph ((("facts")).toList) ++ ((summaryPrompt.userPromptTemplate.drop 137).take 11) ++ (ph ((("timeline")).toList) ++ ((summaryPrompt.userPromptTemplate.drop 158).take 9) ++ (ph ((("issues")).toList) ++ ((summaryPrompt.userPromptTemplate.drop 175).take 12) ++ (ph ((("arguments")).toList) ++ ((summaryPrompt.userPromptTemplate.drop 198).take 8) ++ (ph ((("ratio")).toList) ++ ((summaryPrompt.userPromptTemplate.drop 213).take 9) ++ (ph ((("obiter")).toList) ++ ((summaryPrompt.userPromptTemplate.drop 230).take 11) ++ (ph ((("statutes")).toList) ++ ((summaryPrompt.userPromptTemplate.drop 251).take 13) ++ (ph ((("precedents")).toList) ++ (summaryPrompt.userPromptTemplate.drop 276)))))))))))) from by decide]
      rw [replaceFirst_insert phJudgmentChunks jc (by decide) hdjc (summaryPrompt.userPromptTemplate.take 66).length (summaryPrompt.userPromptTemplate.take 66)
        (((summaryPrompt.userPromptTemplate.drop 82).take 30) ++ (ph ((("metadata")).toList) ++ ((summaryPrompt.userPromptTemplate.drop 122).take 8) ++ (ph ((("facts")).toList) ++ ((summaryPrompt.userPromptTemplate.drop 137).take 11) ++ (ph ((("timeline")).toList) ++ ((summaryPrompt.userPromptTemplate.drop 158).take 9) ++ (ph ((("issues")).toList) ++ ((summaryPrompt.userPromptTemplate.drop 175).take 12) ++ (ph ((("arguments")).toList) ++ ((summaryPrompt.userPromptTemplate.drop 198).take 8) ++ (ph ((("ratio")).toList) ++ ((summaryPrompt.userPromptTemplate.drop 213).take 9) ++ (ph ((("obiter")).toList) ++ ((summaryPrompt.userPromptTemplate.drop 230).take 11) ++ (ph ((("statutes")).toList) ++ ((summaryPrompt.userPromptTemplate.drop 251).take 13) ++ (ph ((("precedents")).toList) ++ (summaryPrompt.userPromptTemplate.drop 276))))))))))) le_rfl (by decide) (by decide)]
      have hjoin : ((summaryPrompt.userPromptTemplate.take 66) ++ jc) ++ (((summaryPrompt.userPromptTemplate.drop 82).take 30) ++ (ph ((("metadata")).toList) ++ ((summaryPrompt.userPromptTemplate.drop 122).take 8) ++ (ph ((("facts")).toList) ++ ((summaryPrompt.userPromptTemplate.drop 137).take 11) ++ (ph ((("timeline")).toList) ++ ((summaryPrompt.userPromptTemplate.drop 158).take 9) ++ (ph ((("issues")).toList) ++ ((summaryPrompt.userPromptTemplate.drop 175).take 12) ++ (ph ((("arguments")).toList) ++ ((summaryPrompt.userPromptTemplate.drop 198).take 8) ++ (ph ((("ratio")).toList) ++ ((summaryPrompt.userPromptTemplate.drop 213).take 9) ++ (ph ((("obiter")).toList) ++ ((summaryPrompt.userPromptTemplate.drop 230).take 11) ++ (ph ((("statutes")).toList) ++ ((summaryPrompt.userPromptTemplate.drop 251).take 13) ++ (ph ((("precedents")).toList) ++ (summaryPrompt.userPromptTemplate.drop 276))))))))))) =
          joinL (([Seg.lit (summaryPrompt.userPromptTemplate.take 66),
         Seg.lit jc,
         Seg.lit ((summaryPrompt.userPromptTemplate.drop 82).take 30),
         Seg.hole (("metadata").toList),
         Seg.lit ((summaryPrompt.userPromptTemplate.drop 122).take 8),
         Seg.hole (("facts").toList),
         Seg.lit ((summaryPrompt.userPromptTemplate.drop 137).take 11),
         Seg.hole (("timeline").toList),
         Seg.lit ((summaryPrompt.userPromptTemplate.drop 158).take 9),
         Seg.hole (("issues").toList),
         Seg.lit ((summaryPrompt.userPromptTemplate.drop 175).take 12),
         Seg.hole (("arguments").toList),
         Seg.lit ((summaryPrompt.userPromptTemplate.drop 198).take 8),
         Seg.hole (("ratio").toList),
         Seg.lit ((summaryPrompt.userPromptTemplate.drop 213).take 9),
         Seg.hole (("obiter").toList),
         Seg.lit ((summaryPrompt.userPromptTemplate.drop 230).take 11),
         Seg.hole (("statutes").toList),
         Seg.lit ((summaryPrompt.userPromptTemplate.drop 251).take 13),
         Seg.hole (("precedents").toList),
         Seg.lit (summaryPrompt.userPromptTemplate.drop 276)]).map (segExpand [])) := by
        simp [joinL, segExpand, lookupCtx, List.append_assoc]
      rw [hjoin]
      have hlits : ∀ s, Seg.lit s ∈ ([Seg.lit (summaryPrompt.userPromptTemplate.take 66),
         Seg.lit jc,
         Seg.lit ((summaryPrompt.userPromptTemplate.drop 82).take 30),
         Seg.hole (("metadata").toList),
         Seg.lit ((summaryPrompt.userPromptTemplate.drop 122).take 8),
         Seg.hole (("facts").toList),
         Seg.lit ((summaryPrompt.userPromptTemplate.drop 137).take 11),
         Seg.hole (("timeline").toList),
         Seg.lit ((summaryPrompt.userPromptTemplate.drop 158).take 9),
         Seg.hole (("issues").toList),
         Seg.lit ((summaryPrompt.userPromptTemplate.drop 175).take 12),
         Seg.hole (("arguments").toList),
         Seg.lit ((summaryPrompt.userPromptTemplate.drop 198).take 8),
         Seg.hole (("ratio").toList),
         Seg.lit ((summaryPrompt.userPromptTemplate.drop 213).take 9),
         Seg.hole (("obiter").toList),
         Seg.lit ((summaryPrompt.userPromptTemplate.drop 230).take 11),
         Seg.hole (("statutes").toList),
         Seg.lit ((summaryPrompt.userPromptTemplate.drop 251).take 13),
         Seg.hole (("precedents").toList),
         Seg.lit (summaryPrompt.userPromptTemplate.drop 276)]) → StepClean s := by
        intro s hs
        simp at hs
        rcases hs with rfl | rfl | rfl | rfl | rfl | rfl | rfl | rfl | rfl | rfl | rfl | rfl
        · decide
        · exact hjc
        · decide
        · decide
        · decide
        · decide
        · decide
        · decide
        · decide
        · decide
        · decide
        · decide
      have hholes : ∀ k, Seg.hole k ∈ ([Seg.lit (summaryPrompt.userPromptTemplate.take 66),
         Seg.lit jc,
         Seg.lit ((summaryPrompt.userPromptTemplate.drop 82).take 30),
         Seg.hole (("metadata").toList),
         Seg.lit ((summaryPrompt.userPromptTemplate.drop 122).take 8),
         Seg.hole (("facts").toList),
         Seg.lit ((summaryPrompt.userPromptTemplate.drop 137).take 11),
         Seg.hole (("timeline").toList),
         Seg.lit ((summaryPrompt.userPromptTemplate.drop 158).take 9),
         Seg.hole (("issues").toList),
         Seg.lit ((summaryPrompt.userPromptTemplate.drop 175).take 12),
         Seg.hole (("arguments").toList),
         Seg.lit ((summaryPrompt.userPromptTemplate.drop 198).take 8),
         Seg.hole (("ratio").toList),
         Seg.lit ((summaryPrompt.userPromptTemplate.drop 213).take 9),
         Seg.hole (("obiter").toList),
         Seg.lit ((summaryPrompt.userPromptTemplate.drop 230).take 11),
         Seg.hole (("statutes").toList),
         Seg.lit ((summaryPrompt.userPromptTemplate.drop 251).take 13),
         Seg.hole (("precedents").toList),
         Seg.lit (summaryPrompt.userPromptTemplate.drop 276)]) → k ∈ analysisStepOrder := by
        intro k hk
        simp at hk
        rcases hk with rfl | rfl | rfl | rfl | rfl | rfl | rfl | rfl | rfl <;> decide
      rw [replaceContext_segs ctx [] _ hctx hdol (by simp) (fun p _ => rfl) hnodup hlits hholes]
      apply joinL_infix
      have hmem : Seg.hole key ∈ ([Seg.lit (summaryPrompt.userPromptTemplate.take 66),
         Seg.lit jc,
         Seg.lit ((summaryPrompt.userPromptTemplate.drop 82).take 30),
         Seg.hole (("metadata").toList),
         Seg.lit ((summaryPrompt.userPromptTemplate.drop 122).take 8),
         Seg.hole (("facts").toList),
         Seg.lit ((summaryPrompt.userPromptTemplate.drop 137).take 11),
         Seg.hole (("timeline").toList),
         Seg.lit ((summaryPrompt.userPromptTemplate.drop 158).take 9),
         Seg.hole (("issues").toList),
         Seg.lit ((summaryPrompt.userPromptTemplate.drop 175).take 12),
         Seg.hole (("arguments").toList),
         Seg.lit ((summaryPrompt.userPromptTemplate.drop 198).take 8),
         Seg.hole (("ratio").toList),
         Seg.lit ((summaryPrompt.userPromptTemplate.drop 213).take 9),
         Seg.hole (("obiter").toList),
         Seg.lit ((summaryPrompt.userPromptTemplate.drop 230).take 11),
         Seg.hole (("statutes").toList),
         Seg.lit ((summaryPrompt.userPromptTemplate.drop 251).take 13),
         Seg.hole (("precedents").toList),
         Seg.lit (summaryPrompt.userPromptTemplate.drop 276)]) := by
        simp only [List.mem_cons, List.not_mem_nil, or_false] at hdep
        rcases hdep with rfl | rfl | rfl | rfl | rfl | rfl | rfl | rfl | rfl <;> simp
      exact List.mem_map.mpr ⟨Seg.hole key, hmem, by simp [segExpand, hlook]⟩

/-- Witness for C2 at the failing demo run (part 1, first logged
prompt) and at the timeline step over the marker context (part 2). -/
theorem C2_step_context_witness :
    ((analyzeJudgment demoBackendNonJson demoParseFail [] demoJid []).promptLog[0]?
        = some demoEntryC2) ∧
    (analysisStepOrder[0]? = some demoEntryC2.1 ∧
      demoEntryC2.2.1.map Prod.fst = analysisStepOrder.take 0 ∧
      ∃ sys fmt, generateAnalysisPrompt demoEntryC2.1 (chunksTextFor [] demoEntryC2.1)
          demoEntryC2.2.1 = Except.ok (sys, demoEntryC2.2.2, fmt)) ∧
    ((("timeline").toList) ∈ analysisStepOrder ∧ StepClean demoJC ∧ '$' ∉ demoJC ∧
      (∀ p ∈ demoCtxC2, p.1 ∈ analysisStepOrder ∧ StepClean (ctxSerialize p.2)) ∧
      (∀ p ∈ demoCtxC2, '$' ∉ ctxSerialize p.2) ∧
      (demoCtxC2.map Prod.fst).Nodup ∧
      (("facts").toList) ∈ stepDeps (("timeline").toList) ∧
      lookupCtx demoCtxC2 (("facts").toList) = some (Json.str (("R1").toList)) ∧
      ∃ sys u fmt, generateAnalysisPrompt (("timeline").toList) demoJC demoCtxC2
          = Except.ok (sys, u, fmt) ∧ ctxSerialize (Json.str (("R1").toList)) <:+: u) :=
  ⟨by decide,
    C2_step_context.1 demoBackendNonJson demoParseFail [] demoJid [] 0 demoEntryC2 (by decide),
    by decide, by decide, by decide, by decide, by decide, by decide, by decide, by decide,
    C2_step_context.2 (("timeline").toList) (by decide) demoJC demoCtxC2 (by decide)
      (by decide) (by decide) (by decide) (by decide)
      (("facts").toList) (Json.str (("R1").toList))
      (by decide) (by decide)⟩


/-- C3 counterexample: with a backend that always answers successfully
with non-JSON text, the run makes exactly one backend call for the
failing step — the parse failure is not retried, so the run does not
take 1 + CALL_RETRIES = 3 attempts — and then turns failed with the
step-naming error. -/
theorem C3_counterexample :
    (runFullAnalysis demoBackendNonJson demoParseFail [] demoJid [] [] demoRecord).2.callCount
        = 1 ∧
    1 ≠ 1 + CALL_RETRIES ∧
    (runFullAnalysis demoBackendNonJson demoParseFail [] demoJid [] [] demoRecord).1.status
        = ("failed").toList ∧
    (runFullAnalysis demoBackendNonJson demoParseFail [] demoJid [] [] demoRecord).1.error
        = some (stepFailMsg (("metadata").toList)
            (("Failed to parse JSON response for step metadata: Unexpected token").toList)) := by
  decide

/-- C3 corrected: for every backend whose calls all succeed and every
parser that rejects everything, the run fails at the first step
(metadata) after exactly one backend call — the configured
CALL_RETRIES retries wrap only transport errors, not parse failures —
with an error naming the failing step, and no step completes. -/
theorem C3_parse_failure_no_retry (backend : Backend) (parseJson : ParseJson)
    (hok : ∀ sys usr i, ∃ c, backend sys usr i = Except.ok (some c))
    (hbad : ∀ s, ∃ m, parseJson s = Except.error m)
    (now jid : List Char) (chunks : List JudgmentChunk) :
    (analyzeJudgment backend parseJson now jid chunks).callCount = 1 ∧
    1 < 1 + CALL_RETRIES ∧
    (∃ m, (analyzeJudgment backend parseJson now jid chunks).outcome =
      Except.error (stepFailMsg (("metadata").toList)
        ((("Failed to parse JSON response for step ").toList ++ ("metadata").toList ++
          (": ").toList ++ m)))) ∧
    (analyzeJudgment backend parseJson now jid chunks).completed = [] := by
  obtain ⟨sys, user, hgen⟩ : ∃ sys user,
      generateAnalysisPrompt (("metadata").toList)
        (chunksTextFor chunks (("metadata").toList)) [] =
        Except.ok (sys, user, metadataPrompt.outputFormat) := ⟨_, _, rfl⟩
  obtain ⟨c, hc⟩ := hok sys user 0
  obtain ⟨m, hm⟩ := hbad c
  have hcall : callLLMWithRetry backend sys user (("metadata").toList) CALL_RETRIES 0
      = (Except.ok (some c), 1) := by
    rw [callLLMWithRetry, hc]
  have hparse : parseAndValidateResponse parseJson (some c) (("metadata").toList)
      = Except.error ((("Failed to parse JSON response for step ").toList ++
          ("metadata").toList ++ (": ").toList ++ m)) := by
    simp only [parseAndValidateResponse, hm]
  have hrun : analyzeJudgment backend parseJson now jid chunks =
      { outcome := Except.error (stepFailMsg (("metadata").toList)
          ((("Failed to parse JSON response for step ").toList ++ ("metadata").toList ++
            (": ").toList ++ m)))
        completed := []
        promptLog := [((("metadata").toList), [], user)]
        callCount := 1 } := by
    show runSteps backend parseJson now chunks analysisStepOrder [] [] 0 0 [] = _
    simp only [analysisStepOrder, runSteps, hgen, hcall, hparse]
    rfl
  rw [hrun]
  exact ⟨rfl, by decide, ⟨m, rfl⟩, rfl⟩

/-- Witness for C3 at the non-JSON demo backend and the rejecting
parser. -/
theorem C3_parse_failure_no_retry_witness :
    (∀ sys usr i, ∃ c, demoBackendNonJson sys usr i = Except.ok (some c)) ∧
    (∀ s, ∃ m, demoParseFail s = Except.error m) ∧
    ((analyzeJudgment demoBackendNonJson demoParseFail [] demoJid []).callCount = 1 ∧
      1 < 1 + CALL_RETRIES ∧
      (∃ m, (analyzeJudgment demoBackendNonJson demoParseFail [] demoJid []).outcome =
        Except.error (stepFailMsg (("metadata").toList)
          ((("Failed to parse JSON response for step ").toList ++ ("metadata").toList ++
            (": ").toList ++ m)))) ∧
      (analyzeJudgment demoBackendNonJson demoParseFail [] demoJid []).completed = []) :=
  ⟨fun _ _ _ => ⟨("not json").toList, rfl⟩,
   fun _ => ⟨("Unexpected token").toList, rfl⟩,
   C3_parse_failure_no_retry demoBackendNonJson demoParseFail
     (fun _ _ _ => ⟨("not json").toList, rfl⟩)
     (fun _ => ⟨("Unexpected token").toList, rfl⟩) [] demoJid []⟩

/-- C4 counterexample: under a backend whose first call succeeds and
whose later calls fail, the metadata step completes in memory, yet
after the facts step exhausts its retries the stored record is only
marked failed: its result field still holds nothing, so the completed
metadata result is not retrievable from the record. -/
theorem C4_counterexample :
    ((runFullAnalysis demoBackendFirstGood demoParseOne [] demoJid [] [] demoRecord).2.completed.map
        (fun r => r.step)) = [("metadata").toList] ∧
    (runFullAnalysis demoBackendFirstGood demoParseOne [] demoJid [] [] demoRecord).1.status
        = ("failed").toList ∧
    (runFullAnalysis demoBackendFirstGood demoParseOne [] demoJid [] [] demoRecord).1.result
        = none := by
  decide

/-- C4 corrected: on any failing run, the status update writes only
the failed status and the error message — the record\x27s result field
is left exactly as it was before the run, so the step results
completed before the failure are not persisted anywhere; they survive
only in the in-memory outcome of the aborted call. -/
theorem C4_failure_discards_step_results (backend : Backend) (parseJson : ParseJson)
    (now jid aid : List Char) (chunks : List JudgmentChunk) (initial : AnalysisRecord)
    (e : List Char)
    (hfail : (analyzeJudgment backend parseJson now jid chunks).outcome = Except.error e) :
    (runFullAnalysis backend parseJson now jid aid chunks initial).1.status
        = ("failed").toList ∧
    (runFullAnalysis backend parseJson now jid aid chunks initial).1.result
        = initial.result ∧
    (runFullAnalysis backend parseJson now jid aid chunks initial).1.error = some e ∧
    (runFullAnalysis backend parseJson now jid aid chunks initial).2 =
      analyzeJudgment backend parseJson now jid chunks := by
  have h : runFullAnalysis backend parseJson now jid aid chunks initial =
      ({ status := ("failed").toList, result := initial.result, error := some e },
        analyzeJudgment backend parseJson now jid chunks) := by
    simp only [runFullAnalysis]
    rw [hfail]
  rw [h]
  exact ⟨rfl, rfl, rfl, rfl⟩

/-- Witness for C4 at the first-call-good demo backend: the facts
step fails after retry exhaustion with the wrapped backend error. -/
theorem C4_failure_discards_step_results_witness :
    ((analyzeJudgment demoBackendFirstGood demoParseOne [] demoJid []).outcome =
      Except.error (stepFailMsg (("facts").toList) (("boom").toList))) ∧
    ((runFullAnalysis demoBackendFirstGood demoParseOne [] demoJid [] [] demoRecord).1.status
        = ("failed").toList ∧
      (runFullAnalysis demoBackendFirstGood demoParseOne [] demoJid [] [] demoRecord).1.result
        = demoRecord.result ∧
      (runFullAnalysis demoBackendFirstGood demoParseOne [] demoJid [] [] demoRecord).1.error
        = some (stepFailMsg (("facts").toList) (("boom").toList)) ∧
      (runFullAnalysis demoBackendFirstGood demoParseOne [] demoJid [] [] demoRecord).2 =
        analyzeJudgment demoBackendFirstGood demoParseOne [] demoJid []) :=
  ⟨by decide,
   C4_failure_discards_step_results demoBackendFirstGood demoParseOne [] demoJid [] []
     demoRecord (stepFailMsg (("facts").toList) (("boom").toList)) (by decide)⟩


end Juris
